import Mathlib

/-!
Shallow embedding of the crossword generator
(`src/crossword_generator/crossword/generator.py`, class `CrosswordGenerator`)
together with the cell and word records from `crossword/utils.py`.

Modelling conventions:
* A grid cell is a record with a `letter` character (`' '` = Blank, `'#'` = Black,
  anything else a letter), an optional clue `number`, and the three start flags,
  mirroring `CrosswordCell`.
* Word texts are lists of characters; `str.upper` / `str.isalpha` are modelled by
  `Char.toUpper` / `Char.isAlpha` (the ASCII fragment, which is what the program's
  word lists use).
* Python's global random source is modelled by an explicit oracle: a list of
  naturals consumed left to right (`0` once exhausted).  `random.choice l` takes
  the next oracle value `k` and picks `l[k % len l]`; `random.shuffle` performs a
  Fisher-Yates pass driven by successive oracle values.  Every outcome the Python
  functions can produce is produced for some oracle, and only those.
* `list.sort(key=len, reverse=True)` (Timsort, stable) is modelled by
  `List.insertionSort` with the non-strict "length not smaller" relation, which
  is a stable descending sort.
* Unbounded `while` loops (`generate`'s growth loop, `_fix_triple_black_cells`,
  the recursive DFS of `_can_add_black_cell`) are given explicit fuel that is
  large enough to reproduce every terminating Python run; the DFS recursion is
  run as an equivalent explicit work-list search computing the same visited set.
-/

namespace Crossword

/-- One grid cell, mirroring `CrosswordCell` from `crossword/utils.py`:
`letter` defaults to Blank `' '`, `number` to `None`, the flags to `False`. -/
structure Cell where
  letter : Char := ' '
  number : Option Nat := none
  is_start : Bool := false
  is_horizontal : Bool := false
  is_vertical : Bool := false
deriving DecidableEq, Repr

/-- A word entry, mirroring `Word` from `crossword/utils.py`. -/
structure Word' where
  text : List Char
  definitions : List String
deriving DecidableEq, Repr, Inhabited

/-- A committed placement `(word, row, col, is_horizontal, definition)` as stored
in `self.word_positions`. -/
abbrev Placement := List Char × Nat × Nat × Bool × String

/-- The mutable state of one `CrosswordGenerator` instance. -/
structure GenState where
  size : Nat
  words : List Word'
  grid : List (List Cell)
  word_positions : List Placement
  used_words : List (List Char)
deriving DecidableEq, Repr

/-- The random oracle: a list of naturals consumed left to right. -/
abbrev RNG := List Nat

/-- Pop the next oracle value (`0` when exhausted). -/
def popR : RNG → Nat × RNG
  | [] => (0, [])
  | k :: ks => (k, ks)

/-- Model of `random.choice l`: the oracle selects the index `k % len l`.
On the empty list (where Python would raise) the default is returned. -/
def choiceD {α : Type} (l : List α) (d : α) (rng : RNG) : α × RNG :=
  let (k, rng') := popR rng
  (l.getD (k % l.length) d, rng')

/-- A separator cell for letter runs: Blank or Black. -/
def isSep (c : Char) : Bool := c == ' ' || c == '#'

/-- Model of `CrosswordGenerator._is_valid_word`: alphabetic text with length
in `[2, 15]`. -/
def isValidWordText (t : List Char) : Bool :=
  t.all Char.isAlpha && decide (2 ≤ t.length) && decide (t.length ≤ 15)

/-- Uppercasing of a raw entry, `Word(text=word_dict['word'].upper(), ...)`. -/
def normWord (w : Word') : Word' :=
  { w with text := w.text.map Char.toUpper }

/-- The descending-length relation used to model
`self.words.sort(key=lambda w: len(w.text), reverse=True)`:
`r a b` holds when `a` is at least as long as `b`.  `insertionSort` with this
relation is a stable descending sort, matching Python's stable Timsort. -/
def lenDescRel (a b : Word') : Prop := b.text.length ≤ a.text.length

instance : DecidableRel lenDescRel := fun a b =>
  inferInstanceAs (Decidable (b.text.length ≤ a.text.length))

instance : IsTotal Word' lenDescRel :=
  ⟨fun a b => (Nat.le_total b.text.length a.text.length).imp id id⟩

instance : IsTrans Word' lenDescRel :=
  ⟨fun _ _ _ h1 h2 => Nat.le_trans h2 h1⟩

/-- The word list built by `CrosswordGenerator.__init__`: uppercase, filter by
`_is_valid_word`, then stable sort by descending length. -/
def mkWords (input : List Word') : List Word' :=
  List.insertionSort lenDescRel
    ((input.map normWord).filter (fun w => isValidWordText w.text))

/-- The all-Blank `size × size` grid created by `__init__`. -/
def blankGrid (n : Nat) : List (List Cell) :=
  List.replicate n (List.replicate n {})

/-- The generator state right after `__init__`. -/
def initState (size : Nat) (input : List Word') : GenState :=
  { size := size
    words := mkWords input
    grid := blankGrid size
    word_positions := []
    used_words := [] }

/-- Cell lookup `self.grid[r][c]` (default Blank cell when out of range;
all in-range uses coincide with the Python access). -/
def getCell (st : GenState) (r c : Nat) : Cell :=
  (st.grid.getD r []).getD c {}

/-- Letter of the cell at `(r, c)`. -/
def getLetter (st : GenState) (r c : Nat) : Char :=
  (getCell st r c).letter

/-- Pointwise update of the `n`-th entry of a list (no-op out of range). -/
def updAt {α : Type} : List α → Nat → (α → α) → List α
  | [], _, _ => []
  | a :: l, 0, f => f a :: l
  | a :: l, n + 1, f => a :: updAt l n f

/-- Update the cell at `(r, c)`. -/
def updCell (st : GenState) (r c : Nat) (f : Cell → Cell) : GenState :=
  { st with grid := updAt st.grid r (fun row => updAt row c f) }

/-- Assignment `self.grid[r][c].letter = ch`. -/
def setLetter (st : GenState) (r c : Nat) (ch : Char) : GenState :=
  updCell st r c (fun cell => { cell with letter := ch })

/-- Membership test `any(w.text == t for w in ws)`. -/
def isWordB (ws : List Word') (t : List Char) : Bool :=
  ws.any (fun w => w.text == t)

/-! ## Validator (`_validate_grid`, `_check_all_letter_sequences`) -/

/-- Row `r` of the grid read as the list of its `size` letters. -/
def rowLine (st : GenState) (r : Nat) : List Char :=
  (List.range st.size).map (fun c => getLetter st r c)

/-- Column `c` of the grid read as the list of its `size` letters. -/
def colLine (st : GenState) (c : Nat) : List Char :=
  (List.range st.size).map (fun r => getLetter st r c)

/-- The per-line scan of `_check_all_letter_sequences`: accumulate the current
letter run in `acc`; on a separator (and at the end of the line) require the
accumulated run, when of length at least 2, to be a known word. -/
def lineCheck (ws : List Word') : List Char → List Char → Bool
  | [], acc => decide (acc.length < 2) || isWordB ws acc
  | ch :: rest, acc =>
    if isSep ch then
      (decide (acc.length < 2) || isWordB ws acc) && lineCheck ws rest []
    else
      lineCheck ws rest (acc ++ [ch])

/-- Model of `_check_all_letter_sequences`: every row and column passes the
line scan. -/
def checkAllLetterSequences (st : GenState) : Bool :=
  (List.range st.size).all (fun r => lineCheck st.words (rowLine st r) []) &&
  (List.range st.size).all (fun c => lineCheck st.words (colLine st c) [])

/-- Horizontal Black triple at row `i`, columns `j`, `j+1`, `j+2`. -/
def tripleAtH (st : GenState) (i j : Nat) : Bool :=
  getLetter st i j == '#' && getLetter st i (j + 1) == '#' &&
    getLetter st i (j + 2) == '#'

/-- Vertical Black triple at column `i`, rows `j`, `j+1`, `j+2`. -/
def tripleAtV (st : GenState) (i j : Nat) : Bool :=
  getLetter st j i == '#' && getLetter st (j + 1) i == '#' &&
    getLetter st (j + 2) i == '#'

/-- Model of `_validate_grid`: no three consecutive Black cells in any row or
column, and every letter run is a known word. -/
def validateGrid (st : GenState) : Bool :=
  ((List.range st.size).all (fun i =>
    (List.range (st.size - 2)).all (fun j =>
      !(tripleAtH st i j) && !(tripleAtV st i j)))) &&
  checkAllLetterSequences st

/-! ## Specification-side notions for the validator

`splitRunsF l` returns the decomposition of a line into the (possibly empty)
segments delimited by separator cells: `(first segment, remaining segments)`.
The nonempty segments are exactly the maximal runs of non-Blank/non-Black
cells of the line. -/

/-- Split a line at its separator cells, keeping empty segments. -/
def splitRunsF : List Char → List Char × List (List Char)
  | [] => ([], [])
  | ch :: rest =>
    let p := splitRunsF rest
    if isSep ch then ([], p.1 :: p.2) else (ch :: p.1, p.2)

/-- All segments of a line, the first one included. -/
def lineRuns (l : List Char) : List (List Char) :=
  (splitRunsF l).1 :: (splitRunsF l).2

/-- A segment is acceptable when it is short (length < 2) or a known word. -/
def runOKb (ws : List Word') (run : List Char) : Bool :=
  decide (run.length < 2) || isWordB ws run

/-! ## Placement legality (`_is_valid_position`, `_can_place_word`) -/

/-- First index of `a` in `l` (`l.length` when absent), Python's `list.index`
restricted to the cases where the callers have checked membership. -/
def firstIdx (l : List Char) (a : Char) : Nat :=
  match l with
  | [] => 0
  | b :: bs => if b = a then 0 else firstIdx bs a + 1

/-- Model of `_is_valid_position` over integer coordinates (Python's anchor
arithmetic may go negative before this check rejects it). -/
def isValidPositionI (size : Nat) (row col : Int) (wlen : Nat) (isH : Bool) : Bool :=
  if isH then
    decide (0 ≤ row) && decide (row < (size : Int)) &&
      decide (0 ≤ col) && decide (col ≤ (size : Int) - (wlen : Int))
  else
    decide (0 ≤ col) && decide (col < (size : Int)) &&
      decide (0 ≤ row) && decide (row ≤ (size : Int) - (wlen : Int))

/-- Model of `_can_place_word word row col is_horizontal letter`:
derive the anchor from the first occurrence of `letter` in `word`, then check
fit, the border cells before/after the word, the absence of Black cells on the
two flanks of the span, and letter agreement along the span. -/
def canPlaceWordS (st : GenState) (w : List Char) (row col : Nat)
    (isH : Bool) (letter : Char) : Bool :=
  let off := firstIdx w letter
  let nrI : Int := if isH then (row : Int) else (row : Int) - (off : Int)
  let ncI : Int := if isH then (col : Int) - (off : Int) else (col : Int)
  if !(isValidPositionI st.size nrI ncI w.length isH) then false
  else
    let nr := nrI.toNat
    let nc := ncI.toNat
    (if isH then
      (if 0 < nc then getLetter st nr (nc - 1) == '#' else true) &&
      (if nc + w.length < st.size then
          (getLetter st nr (nc + w.length) == ' ' ||
           getLetter st nr (nc + w.length) == '#')
        else true) &&
      (List.range w.length).all (fun i =>
        (if 0 < nr then !(getLetter st (nr - 1) (nc + i) == '#') else true) &&
        (if nr < st.size - 1 then !(getLetter st (nr + 1) (nc + i) == '#')
          else true))
    else
      (if 0 < nr then getLetter st (nr - 1) nc == '#' else true) &&
      (if nr + w.length < st.size then
          (getLetter st (nr + w.length) nc == ' ' ||
           getLetter st (nr + w.length) nc == '#')
        else true) &&
      (List.range w.length).all (fun i =>
        (if 0 < nc then !(getLetter st (nr + i) (nc - 1) == '#') else true) &&
        (if nc < st.size - 1 then !(getLetter st (nr + i) (nc + 1) == '#')
          else true))) &&
    (List.range w.length).all (fun i =>
      let r := if isH then nr else nr + i
      let c := if isH then nc + i else nc
      (getLetter st r c == ' ' || getLetter st r c == w.getD i ' '))

/-! ## Perpendicular run reconstruction
(`_get_vertical_word`, `_get_horizontal_word`) -/

/-- The upward scan of `_get_vertical_word`: starting from `row`, walk up while
the cell above is a letter. -/
def vStartRow (st : GenState) (col : Nat) : Nat → Nat
  | 0 => 0
  | r + 1 => if isSep (getLetter st r col) then r + 1 else vStartRow st col r

/-- The downward collection of `_get_vertical_word`: read letters from `cur`
down while in range and not a separator, substituting `newL` at `targetRow`.
Note that the loop tests the letter stored in the grid even at `targetRow`, so
a Blank target cell ends the run. -/
def vCollect (st : GenState) (col targetRow : Nat) (newL : Char) :
    Nat → Nat → List Char
  | _, 0 => []
  | cur, fuel + 1 =>
    if cur < st.size && !(isSep (getLetter st cur col)) then
      (if cur == targetRow then newL else getLetter st cur col) ::
        vCollect st col targetRow newL (cur + 1) fuel
    else []

/-- Model of `_get_vertical_word`. -/
def getVerticalWordS (st : GenState) (row col : Nat) (newL : Char) :
    Option (List Char) :=
  let s := vStartRow st col row
  let w := vCollect st col row newL s st.size
  if w.isEmpty then none else some w

/-- The leftward scan of `_get_horizontal_word`. -/
def hStartCol (st : GenState) (row : Nat) : Nat → Nat
  | 0 => 0
  | c + 1 => if isSep (getLetter st row c) then c + 1 else hStartCol st row c

/-- The rightward collection of `_get_horizontal_word`. -/
def hCollect (st : GenState) (row targetCol : Nat) (newL : Char) :
    Nat → Nat → List Char
  | _, 0 => []
  | cur, fuel + 1 =>
    if cur < st.size && !(isSep (getLetter st row cur)) then
      (if cur == targetCol then newL else getLetter st row cur) ::
        hCollect st row targetCol newL (cur + 1) fuel
    else []

/-- Model of `_get_horizontal_word`. -/
def getHorizontalWordS (st : GenState) (row col : Nat) (newL : Char) :
    Option (List Char) :=
  let s := hStartCol st row col
  let w := hCollect st row col newL s st.size
  if w.isEmpty then none else some w

/-! ## Black-cell management
(`_would_create_triple_black`, `_can_add_black_cell`, `_try_add_black_cell`) -/

/-- Model of `_would_create_triple_black`. -/
def wouldCreateTripleBlack (st : GenState) (row col : Nat) : Bool :=
  let b := fun r c => getLetter st r c == '#'
  (decide (0 < col) && decide (col < st.size - 1) &&
    b row (col - 1) && b row (col + 1)) ||
  (decide (1 < col) && b row (col - 2) && b row (col - 1)) ||
  (decide (col < st.size - 2) && b row (col + 1) && b row (col + 2)) ||
  (decide (0 < row) && decide (row < st.size - 1) &&
    b (row - 1) col && b (row + 1) col) ||
  (decide (1 < row) && b (row - 2) col && b (row - 1) col) ||
  (decide (row < st.size - 2) && b (row + 1) col && b (row + 2) col)

/-- Letters of the grid as a plain character matrix (the `temp_grid` copies). -/
def letterMatrix (g : List (List Cell)) : List (List Char) :=
  g.map (fun row => row.map (fun cell => cell.letter))

/-- Letter lookup in a character matrix (default Blank out of range). -/
def mGet (m : List (List Char)) (r c : Nat) : Char :=
  (m.getD r []).getD c ' '

/-- Pointwise write into a character matrix. -/
def mSet (m : List (List Char)) (r c : Nat) (ch : Char) : List (List Char) :=
  updAt m r (fun row => updAt row c (fun _ => ch))

/-- Row-major search for the first non-Blank, non-Black cell. -/
def firstLetterCell (m : List (List Char)) (size : Nat) : Option (Nat × Nat) :=
  (List.range size).findSome? (fun i =>
    (List.range size).findSome? (fun j =>
      if !(isSep (mGet m i j)) then some (i, j) else none))

/-- Work-list depth-first search computing the visited set of the recursive
`dfs` in `_can_add_black_cell`: pop a cell, skip it when already visited, out
of range, or a separator, otherwise record it and push its four neighbours.
(Nat truncation at the borders only re-pushes the already-visited cell itself,
matching the Python bounds checks.) -/
def dfsGo (m : List (List Char)) (size : Nat) :
    Nat → List (Nat × Nat) → List (Nat × Nat) → List (Nat × Nat)
  | 0, _, vis => vis
  | _ + 1, [], vis => vis
  | fuel + 1, (r, c) :: stk, vis =>
    if vis.contains (r, c) then dfsGo m size fuel stk vis
    else if size ≤ r || size ≤ c then dfsGo m size fuel stk vis
    else if isSep (mGet m r c) then dfsGo m size fuel stk vis
    else
      dfsGo m size fuel
        ((r, c + 1) :: (r + 1, c) :: (r, c - 1) :: (r - 1, c) :: stk)
        ((r, c) :: vis)

/-- Number of non-Blank, non-Black cells of the matrix. -/
def letterCount (m : List (List Char)) (size : Nat) : Nat :=
  ((List.range size).map (fun i =>
    ((List.range size).filter (fun j => !(isSep (mGet m i j)))).length)).sum

/-- Reachability check on a letter matrix: no letter cell at all, or the
depth-first search from the first letter cell visits every letter cell. -/
def matrixConnected (m : List (List Char)) (size : Nat) : Bool :=
  match firstLetterCell m size with
  | none => true
  | some (r, c) =>
    (dfsGo m size (5 * size * size + 5) [(r, c)] []).length ==
      letterCount m size

/-- Model of `_can_add_black_cell`: blacken `(row, col)` on a copy of the
letters and check that the remaining letter cells are all reachable from the
first one. -/
def canAddBlackCell (st : GenState) (row col : Nat) : Bool :=
  matrixConnected (mSet (letterMatrix st.grid) row col '#') st.size

/-- The flood-fill connectivity check applied to a grid as it stands. -/
def gridConnected (g : List (List Cell)) (size : Nat) : Bool :=
  matrixConnected (letterMatrix g) size

/-- Model of `_try_add_black_cell`: blacken an interior cell provided this
creates no Black triple and keeps the letter cells connected. -/
def tryAddBlackCell (st : GenState) (row col : Nat) : Bool × GenState :=
  if decide (0 < row) && decide (row < st.size - 1) &&
      decide (0 < col) && decide (col < st.size - 1) then
    if !(wouldCreateTripleBlack st row col) then
      if canAddBlackCell st row col then (true, setLetter st row col '#')
      else (false, st)
    else (false, st)
  else (false, st)

/-! ## Crossing verification and placement
(`_check_adjacent_words`, `_place_word`) -/

/-- The per-letter loop of `_check_adjacent_words` starting at letter `i`
(the second fuel argument is the number of letters still to inspect).  On the
first letter whose perpendicular neighbour holds a letter and whose
reconstructed perpendicular run is not a known word, the loop returns the
result of `_try_add_black_cell` on that cell immediately. -/
def checkAdjLoop (st : GenState) (w : List Char) (row col : Nat) (isH : Bool) :
    Nat → Nat → Bool × GenState
  | _, 0 => (true, st)
  | i, fuel + 1 =>
    if i < w.length then
      let cr := if isH then row else row + i
      let cc := if isH then col + i else col
      let adj :=
        if isH then
          (decide (0 < cr) && !(isSep (getLetter st (cr - 1) cc))) ||
          (decide (cr < st.size - 1) && !(isSep (getLetter st (cr + 1) cc)))
        else
          (decide (0 < cc) && !(isSep (getLetter st cr (cc - 1)))) ||
          (decide (cc < st.size - 1) && !(isSep (getLetter st cr (cc + 1))))
      if adj then
        let perp :=
          if isH then getVerticalWordS st cr cc (w.getD i ' ')
          else getHorizontalWordS st cr cc (w.getD i ' ')
        match perp with
        | some run =>
          if !(isWordB st.words run) then tryAddBlackCell st cr cc
          else checkAdjLoop st w row col isH (i + 1) fuel
        | none => checkAdjLoop st w row col isH (i + 1) fuel
      else checkAdjLoop st w row col isH (i + 1) fuel
    else (true, st)

/-- Model of `_check_adjacent_words`. -/
def checkAdjacentWordsS (st : GenState) (w : List Char) (row col : Nat)
    (isH : Bool) : Bool × GenState :=
  if !(isWordB st.words w) then (false, st)
  else checkAdjLoop st w row col isH 0 w.length

/-- Assignment of the clue number (`self.grid[row][col].number = n`). -/
def setNumber (st : GenState) (r c n : Nat) : GenState :=
  updCell st r c (fun cell => { cell with number := some n })

/-- Setting of the start flags of the anchor cell. -/
def setStartFlags (st : GenState) (r c : Nat) (isH : Bool) : GenState :=
  updCell st r c (fun cell =>
    if isH then { cell with is_start := true, is_horizontal := true }
    else { cell with is_start := true, is_vertical := true })

/-- Writing the word's letters over its span, letter `i` at offset `i` from
the anchor. -/
def writeLettersGo (row col : Nat) (isH : Bool) :
    GenState → List Char → Nat → GenState
  | st, [], _ => st
  | st, ch :: rest, i =>
    writeLettersGo row col isH
      (setLetter st (if isH then row else row + i)
        (if isH then col + i else col) ch)
      rest (i + 1)

/-- Model of `_add_black_cells_around_word`: blacken the cell before the
anchor and the cell after the end, each skipped when it would directly extend
an adjacent Black cell into a triple. -/
def addBlackAround (st : GenState) (row col wl : Nat) (isH : Bool) : GenState :=
  if isH then
    let st1 :=
      if 0 < col then
        if !(decide (1 < col) && getLetter st row (col - 2) == '#') then
          setLetter st row (col - 1) '#'
        else st
      else st
    if col + wl < st.size then
      if !(decide (col + wl < st.size - 1) &&
            getLetter st1 row (col + wl + 1) == '#') then
        setLetter st1 row (col + wl) '#'
      else st1
    else st1
  else
    let st1 :=
      if 0 < row then
        if !(decide (1 < row) && getLetter st (row - 2) col == '#') then
          setLetter st (row - 1) col '#'
        else st
      else st
    if row + wl < st.size then
      if !(decide (row + wl < st.size - 1) &&
            getLetter st1 (row + wl + 1) col == '#') then
        setLetter st1 (row + wl) col '#'
      else st1
    else st1

/-- Recording of the placement in `word_positions` and `used_words`. -/
def appendPlacement (st1 : GenState) (w : List Char) (row col : Nat)
    (isH : Bool) (d : String) : GenState :=
  { st1 with
    word_positions := st1.word_positions ++ [(w, row, col, isH, d)]
    used_words := w :: st1.used_words }

/-- Clue-number assignment of `_place_word`: the anchor cell receives the
current placement count — but only when it has no number yet. -/
def assignNumber (st2 : GenState) (row col : Nat) : GenState :=
  if (getCell st2 row col).number = none then
    setNumber st2 row col st2.word_positions.length
  else st2

/-- The mutating tail of `_place_word` after a successful adjacency check:
record the placement, assign the clue number, set the start flags, write the
letters and add the black borders. -/
def placeCore (st1 : GenState) (w : List Char) (row col : Nat) (isH : Bool)
    (d : String) : GenState :=
  addBlackAround
    (writeLettersGo row col isH
      (setStartFlags (assignNumber (appendPlacement st1 w row col isH d)
        row col) row col isH)
      w 0)
    row col w.length isH

/-- Model of `_place_word`: run the adjacency check (which may blacken one
cell as a remedy), then record the placement, assign the clue number when the
anchor has none, set the start flags, write the letters and add the black
borders. -/
def placeWordS (st : GenState) (w : List Char) (row col : Nat) (isH : Bool)
    (d : String) : Bool × GenState :=
  let p := checkAdjacentWordsS st w row col isH
  if p.1 then (true, placeCore p.2 w row col isH d)
  else (false, p.2)

/-! ## Seeding (`_place_first_word`) -/

/-- The seed candidates of `_place_first_word`: unused words of length in
`[2, min(size - 2, 8)]`. -/
def suitableFirstWords (st : GenState) : List Word' :=
  st.words.filter (fun w =>
    decide (2 ≤ w.text.length) &&
    decide (w.text.length ≤ min (st.size - 2) 8) &&
    !(st.used_words.contains w.text))

/-- Model of `_place_first_word`. -/
def placeFirstWordS (st : GenState) (rng : RNG) : Bool × GenState × RNG :=
  let suitable := suitableFirstWords st
  if suitable.isEmpty then (false, st, rng)
  else
    let (w, rng1) := choiceD suitable default rng
    let row := st.size / 2
    let col := (st.size - w.text.length) / 2
    let (d, rng2) := choiceD w.definitions "" rng1
    let p := placeWordS st w.text row col true d
    (p.1, p.2, rng2)

/-! ## Growth (`_find_intersections`, `_add_word`, the main loop) -/

/-- Model of `_can_start_vertical_word`. -/
def canStartVerticalWord (st : GenState) (r c : Nat) : Bool :=
  (r == 0 || isSep (getLetter st (r - 1) c)) &&
  decide (r < st.size - 1) && getLetter st (r + 1) c == ' '

/-- Model of `_can_start_horizontal_word`. -/
def canStartHorizontalWord (st : GenState) (r c : Nat) : Bool :=
  (c == 0 || isSep (getLetter st r (c - 1))) &&
  decide (c < st.size - 1) && getLetter st r (c + 1) == ' '

/-- Model of `_find_intersections`: row-major scan collecting, for every
letter cell, a vertical and then a horizontal candidate when a perpendicular
word could start there. -/
def findIntersections (st : GenState) : List (Nat × Nat × Char × Bool) :=
  (List.range st.size).flatMap (fun r =>
    (List.range st.size).flatMap (fun c =>
      let ch := getLetter st r c
      if !(isSep ch) then
        (if canStartVerticalWord st r c then [(r, c, ch, false)] else []) ++
        (if canStartHorizontalWord st r c then [(r, c, ch, true)] else [])
      else []))

/-- Oracle-driven Fisher-Yates pass modelling `random.shuffle`: repeatedly
extract the element at the oracle-chosen index. -/
def shuffleGo {α : Type} [Inhabited α] :
    Nat → List α → RNG → List α × RNG
  | 0, _, rng => ([], rng)
  | fuel + 1, l, rng =>
    if l.isEmpty then ([], rng)
    else
      let (k, rng1) := popR rng
      let i := k % l.length
      let x := l.getD i default
      let p := shuffleGo fuel (l.eraseIdx i) rng1
      (x :: p.1, p.2)

/-- Model of `random.shuffle` on a list. -/
def shuffleOracle {α : Type} [Inhabited α] (l : List α) (rng : RNG) :
    List α × RNG :=
  shuffleGo l.length l rng

/-- The candidate loop of `_add_word`: for each intersection candidate, filter
the words that contain the letter, are unused and pass `_can_place_word`; pick
one at random, re-derive the anchor, and try `_place_word`. -/
def addWordLoop (st : GenState) :
    List (Nat × Nat × Char × Bool) → RNG → Bool × GenState × RNG
  | [], rng => (false, st, rng)
  | (row, col, letter, isH) :: rest, rng =>
    let possible := st.words.filter (fun w =>
      w.text.contains letter && !(st.used_words.contains w.text) &&
      canPlaceWordS st w.text row col isH letter)
    if possible.isEmpty then addWordLoop st rest rng
    else
      let (w, rng1) := choiceD possible default rng
      let off := firstIdx w.text letter
      let nrI : Int := if isH then (row : Int) else (row : Int) - (off : Int)
      let ncI : Int := if isH then (col : Int) - (off : Int) else (col : Int)
      if isValidPositionI st.size nrI ncI w.text.length isH then
        let (d, rng2) := choiceD w.definitions "" rng1
        let p := placeWordS st w.text nrI.toNat ncI.toNat isH d
        if p.1 then (true, p.2, rng2) else addWordLoop p.2 rest rng2
      else addWordLoop st rest rng1

/-- Model of `_add_word`. -/
def addWordS (st : GenState) (rng : RNG) : Bool × GenState × RNG :=
  let ints := findIntersections st
  if ints.isEmpty then (false, st, rng)
  else
    let p := shuffleOracle ints rng
    addWordLoop st p.1 p.2

/-- The growth loop of `generate`: up to 150 consecutive failed attempts, with
an early exit once `min 20 (len words / 2)` placements exist.  The fuel is an
upper bound on loop iterations; `generate` supplies enough fuel for every
terminating Python run. -/
def growLoop : Nat → Nat → GenState → RNG → GenState × RNG
  | 0, _, st, rng => (st, rng)
  | fuel + 1, attempts, st, rng =>
    if attempts < 150 then
      let (ok, st1, rng1) := addWordS st rng
      let attempts1 := if ok then 0 else attempts + 1
      if min 20 (st1.words.length / 2) ≤ st1.word_positions.length then
        (st1, rng1)
      else growLoop fuel attempts1 st1 rng1
    else (st, rng)

/-! ## Fill and repair
(`_can_place_word_without_conflict`, `_get_word_at_position`,
`_try_place_short_word`, `_fill_empty_spaces`, `_fix_triple_black_cells`) -/

/-- The leftward/upward scan of `_get_word_at_position` on a letter matrix. -/
def wapStart (m : List (List Char)) (fixedIdx : Nat) (isH : Bool) : Nat → Nat
  | 0 => 0
  | k + 1 =>
    let ch := if isH then mGet m fixedIdx k else mGet m k fixedIdx
    if isSep ch then k + 1 else wapStart m fixedIdx isH k

/-- The forward collection of `_get_word_at_position`. -/
def wapCollect (m : List (List Char)) (size : Nat) (isH : Bool)
    (fixedIdx : Nat) : Nat → Nat → List Char
  | _, 0 => []
  | cur, fuel + 1 =>
    let ch := if isH then mGet m fixedIdx cur else mGet m cur fixedIdx
    if cur < size && !(isSep ch) then
      ch :: wapCollect m size isH fixedIdx (cur + 1) fuel
    else []

/-- Model of `_get_word_at_position` on a letter matrix. -/
def getWordAtPositionS (m : List (List Char)) (size : Nat) (row col : Nat)
    (isH : Bool) : Option (List Char) :=
  let fixedIdx := if isH then row else col
  let start := wapStart m fixedIdx isH (if isH then col else row)
  let w := wapCollect m size isH fixedIdx start size
  if w.isEmpty then none else some w

/-- Model of `_can_place_word_without_conflict`: the span must consist of
Blank or Black cells, and for each letter the horizontal and vertical runs
read from a copy of the grid holding just that letter must be known words
when of length at least 2. -/
def canPlaceWordNoConflict (st : GenState) (w : List Char) (row col : Nat)
    (isH : Bool) : Bool :=
  if !(isValidPositionI st.size (row : Int) (col : Int) w.length isH) then
    false
  else
    (List.range w.length).all (fun i =>
      let r := if isH then row else row + i
      let c := if isH then col + i else col
      isSep (getLetter st r c) &&
      (let m := mSet (letterMatrix st.grid) r c (w.getD i ' ')
       (match getWordAtPositionS m st.size r c false with
        | some run => decide (run.length < 2) || isWordB st.words run
        | none => true) &&
       (match getWordAtPositionS m st.size r c true with
        | some run => decide (run.length < 2) || isWordB st.words run
        | none => true)))

/-- The word loop of `_try_place_short_word`.  Note that the Python code
returns `True` as soon as a candidate passes the conflict check, whether or
not the subsequent `_place_word` call succeeded. -/
def tryShortLoop (st : GenState) (row col : Nat) (isH : Bool) :
    List Word' → RNG → Bool × GenState × RNG
  | [], rng => (false, st, rng)
  | w :: rest, rng =>
    if canPlaceWordNoConflict st w.text row col isH then
      let (d, rng1) := choiceD w.definitions "" rng
      let p := placeWordS st w.text row col isH d
      (true, p.2, rng1)
    else tryShortLoop st row col isH rest rng

/-- Model of `_try_place_short_word`: try each unused length-2 word in list
order. -/
def tryPlaceShortWordS (st : GenState) (row col : Nat) (isH : Bool)
    (rng : RNG) : Bool × GenState × RNG :=
  tryShortLoop st row col isH
    (st.words.filter (fun w =>
      w.text.length == 2 && !(st.used_words.contains w.text))) rng

/-- Model of `_fill_empty_spaces`: for every Blank cell in row-major order,
first try a horizontal length-2 word there; otherwise blacken the cell unless
that would create a Black triple, in which case it stays Blank. -/
def fillEmptySpacesS (st : GenState) (rng : RNG) : GenState × RNG :=
  ((List.range st.size).flatMap (fun r =>
      (List.range st.size).map (fun c => (r, c)))).foldl
    (fun p rc =>
      let st := p.1
      let rng := p.2
      let r := rc.1
      let c := rc.2
      if getLetter st r c == ' ' then
        let (ok, st1, rng1) := tryPlaceShortWordS st r c true rng
        if ok then (st1, rng1)
        else if !(wouldCreateTripleBlack st1 r c) then
          (setLetter st1 r c '#', rng1)
        else (st1, rng1)
      else p)
    (st, rng)

/-- One full scan of `_fix_triple_black_cells`: at every horizontal or
vertical Black triple, try a length-2 word over the middle cell; the flag
records whether any attempt reported success. -/
def fixPass (st : GenState) (rng : RNG) : GenState × Bool × RNG :=
  ((List.range st.size).flatMap (fun i =>
      (List.range (st.size - 2)).map (fun j => (i, j)))).foldl
    (fun acc ij =>
      let st := acc.1
      let fixed := acc.2.1
      let rng := acc.2.2
      let i := ij.1
      let j := ij.2
      let (st1, fixed1, rng1) :=
        if tripleAtH st i j then
          let (ok, st', rng') := tryPlaceShortWordS st i (j + 1) true rng
          (st', fixed || ok, rng')
        else (st, fixed, rng)
      if tripleAtV st1 i j then
        let (ok, st', rng') := tryPlaceShortWordS st1 (j + 1) i false rng1
        (st', (fixed1 || ok, rng'))
      else (st1, (fixed1, rng1)))
    (st, false, rng)

/-- The repeat-until-stable loop of `_fix_triple_black_cells` (with fuel; the
Python loop can fail to terminate when a spurious success repeats, see the
remark at `tryShortLoop`). -/
def fixLoop : Nat → GenState → RNG → GenState × RNG
  | 0, st, rng => (st, rng)
  | fuel + 1, st, rng =>
    let (st1, fixed, rng1) := fixPass st rng
    if fixed then fixLoop fuel st1 rng1 else (st1, rng1)

/-! ## The generation pipeline (`generate`) -/

/-- Fuel for the growth loop: between two successful placements at most 150
iterations pass, and there are at most `len words` successes. -/
def growFuel (st : GenState) : Nat := 151 * (st.words.length + 1) + 1

/-- Fuel for the triple-Black repair loop. -/
def fixFuel (st : GenState) : Nat :=
  (st.words.length + 1) * (st.size * st.size + 1)

/-- The state and oracle left after the seeding and growth phases of
`generate` (the moment the growth loop ends). -/
def growPhase (size : Nat) (input : List Word') (rng : RNG) :
    Bool × GenState × RNG :=
  let st0 := initState size input
  let (ok, st1, rng1) := placeFirstWordS st0 rng
  if ok then
    let p := growLoop (growFuel st1) 0 st1 rng1
    (true, p.1, p.2)
  else (false, st1, rng1)

/-- The fill and repair phases applied to the grown state. -/
def finishPhase (st : GenState) (rng : RNG) : GenState :=
  let p := fillEmptySpacesS st rng
  (fixLoop (fixFuel p.1) p.1 p.2).1

/-- Model of `generate`, returning the result together with the final state. -/
def generateS (size : Nat) (input : List Word') (rng : RNG) :
    Bool × GenState :=
  let (ok, st1, rng1) := growPhase size input rng
  if ok then
    if 4 ≤ st1.word_positions.length then
      let st2 := finishPhase st1 rng1
      (validateGrid st2, st2)
    else (false, st1)
  else (false, st1)

/-! ## General helper lemmas -/

theorem getD_blankGrid (n r : Nat) : (blankGrid n).getD r [] = List.replicate n {} ∨
    (blankGrid n).getD r [] = ([] : List Cell) := by
  unfold blankGrid
  rcases Nat.lt_or_ge r n with h | h
  · left
    rw [List.getD_eq_getElem?_getD, List.getElem?_replicate, if_pos h]
    rfl
  · right
    rw [List.getD_eq_getElem?_getD, List.getElem?_replicate, if_neg (by omega)]
    rfl

theorem getLetter_blank (n : Nat) (ws : List Word') (ps : List Placement)
    (us : List (List Char)) (r c : Nat) :
    getLetter ⟨n, ws, blankGrid n, ps, us⟩ r c = ' ' := by
  unfold getLetter getCell
  rcases getD_blankGrid n r with h | h <;> rw [h]
  · rcases Nat.lt_or_ge c n with hc | hc
    · rw [List.getD_eq_getElem?_getD, List.getElem?_replicate, if_pos hc]
      rfl
    · rw [List.getD_eq_getElem?_getD, List.getElem?_replicate, if_neg (by omega)]
      rfl
  · rfl

theorem lineCheck_replicate_blank (ws : List Word') (n : Nat) :
    lineCheck ws (List.replicate n ' ') [] = true := by
  induction n with
  | zero => rfl
  | succ m ih =>
    rw [List.replicate_succ]
    simp only [lineCheck, isSep]
    simpa using ih

/-- The line scan is the conjunction of the run checks over the segments of
the line delimited by separator cells. -/
theorem lineCheck_eq_runs (ws : List Word') :
    ∀ (l acc : List Char),
      lineCheck ws l acc =
        (runOKb ws (acc ++ (splitRunsF l).1) &&
          (splitRunsF l).2.all (runOKb ws)) := by
  intro l
  induction l with
  | nil =>
    intro acc
    simp [lineCheck, splitRunsF, runOKb]
  | cons ch rest ih =>
    intro acc
    by_cases h : isSep ch = true
    · simp only [lineCheck, splitRunsF, h, if_pos]
      rw [ih []]
      simp [runOKb, Bool.and_assoc]
    · simp only [lineCheck, splitRunsF, h]
      rw [ih (acc ++ [ch])]
      simp

theorem updAt_getD_ne {α : Type} (l : List α) (n : Nat) (g : α → α)
    (m : Nat) (d : α) (h : m ≠ n) : (updAt l n g).getD m d = l.getD m d := by
  induction l generalizing n m with
  | nil => rfl
  | cons a t iht =>
    cases n with
    | zero =>
      cases m with
      | zero => omega
      | succ m' => rfl
    | succ n' =>
      cases m with
      | zero => rfl
      | succ m' => exact iht n' m' (by omega)

theorem updAt_getD_self {α : Type} (l : List α) (n : Nat) (g : α → α)
    (d : α) :
    (updAt l n g).getD n d = if n < l.length then g (l.getD n d) else d := by
  induction l generalizing n with
  | nil => cases n <;> simp [updAt]
  | cons a t iht =>
    cases n with
    | zero => simp [updAt]
    | succ n' =>
      simp only [updAt, List.getD_cons_succ, List.length_cons]
      rw [iht n']
      by_cases hlt : n' < t.length
      · rw [if_pos hlt, if_pos (by omega)]
      · rw [if_neg hlt, if_neg (by omega)]

/-- An update at `(r, c)` does not change any other cell. -/
theorem getCell_updCell_ne (st : GenState) (r c : Nat) (f : Cell → Cell)
    (r' c' : Nat) (h : ¬(r' = r ∧ c' = c)) :
    getCell (updCell st r c f) r' c' = getCell st r' c' := by
  unfold updCell getCell
  simp only
  by_cases hr : r' = r
  · subst hr
    have hc : c' ≠ c := fun hcc => h ⟨rfl, hcc⟩
    rw [updAt_getD_self]
    by_cases hlen : r' < st.grid.length
    · rw [if_pos hlen, updAt_getD_ne _ _ _ _ _ hc]
    · rw [if_neg hlen]
      have hnil : st.grid.getD r' [] = [] := by
        rw [List.getD_eq_getElem?_getD, List.getElem?_eq_none (by omega)]
        rfl
      rw [hnil]
  · rw [updAt_getD_ne _ _ _ _ _ hr]

/-- An update at `(r, c)` applies `f` there (in range) or does nothing. -/
theorem getCell_updCell_self (st : GenState) (r c : Nat) (f : Cell → Cell) :
    getCell (updCell st r c f) r c = f (getCell st r c) ∨
      getCell (updCell st r c f) r c = getCell st r c := by
  unfold updCell getCell
  simp only
  rw [updAt_getD_self]
  by_cases hlen : r < st.grid.length
  · rw [if_pos hlen, updAt_getD_self]
    by_cases hc : c < (st.grid.getD r []).length
    · rw [if_pos hc]; left; rfl
    · rw [if_neg hc]
      right
      rw [List.getD_eq_getElem?_getD, List.getElem?_eq_none (by omega)]
      rfl
  · rw [if_neg hlen]
    right
    have hnil : st.grid.getD r [] = [] := by
      rw [List.getD_eq_getElem?_getD, List.getElem?_eq_none (by omega)]
      rfl
    rw [hnil]

/-! ## Claim C1 -/

/-- C1: `generate` returns `True` exactly when the seeding succeeded, at least
4 words were placed at the moment the growth loop ended, and the final grid
(after the fill and repair phases) passes `_validate_grid`; in particular, with
fewer than 4 placements at the end of the growth loop the result is `False`,
and a `True` result implies both conditions. -/
theorem C1_generate_result (size : Nat) (input : List Word') (rng : RNG) :
    (generateS size input rng).1 =
      ((growPhase size input rng).1 &&
        decide (4 ≤ (growPhase size input rng).2.1.word_positions.length) &&
        validateGrid
          (finishPhase (growPhase size input rng).2.1
            (growPhase size input rng).2.2)) := by
  unfold generateS
  rcases hg : growPhase size input rng with ⟨ok, st1, rng1⟩
  cases ok
  · simp
  · by_cases h4 : 4 ≤ st1.word_positions.length
    · simp [h4]
    · simp [h4]

/-! ## Claim C7 -/

/-- C7 counterexample: a grid that still contains Blank cells but passes
`_validate_grid` in full.  The 3×3 grid holds the word `CA` in its first row
and Blank everywhere else; the validator accepts it, refuting the claim that
any grid with a Blank cell is rejected. -/
def stBlankPass : GenState :=
  { size := 3
    words := [⟨['C', 'A'], ["casa"]⟩]
    grid := [[{ letter := 'C' }, { letter := 'A' }, {}], [{}, {}, {}], [{}, {}, {}]]
    word_positions := [(['C', 'A'], 0, 0, true, "casa")]
    used_words := [['C', 'A']] }

/-- C7 is false as stated: `stBlankPass` contains a Blank cell (for instance
at `(0, 2)`) yet `_validate_grid` returns `True` on it. -/
theorem C7_counterexample :
    getLetter stBlankPass 0 2 = ' ' ∧ getLetter stBlankPass 1 1 = ' ' ∧
      validateGrid stBlankPass = true := by
  refine ⟨rfl, rfl, ?_⟩
  decide

/-- C7 amended: the validator treats a Blank cell as a run separator exactly
like a Black cell and does not reject a grid merely for containing Blanks; in
particular the all-Blank grid of any size passes `_validate_grid` for any word
list (so an Accepted grid is not guaranteed to be Blank-free by the validator
alone). -/
theorem C7_amended_blank_grid_validates (n : Nat) (ws : List Word')
    (ps : List Placement) (us : List (List Char)) :
    validateGrid ⟨n, ws, blankGrid n, ps, us⟩ = true := by
  have hblank : ∀ r c : Nat, getLetter ⟨n, ws, blankGrid n, ps, us⟩ r c = ' ' :=
    getLetter_blank n ws ps us
  unfold validateGrid checkAllLetterSequences
  have hline : ∀ (l : List Nat) (f : Nat → List Char),
      (∀ x ∈ l, f x = List.replicate n ' ') →
      l.all (fun x => lineCheck ws (f x) []) = true := by
    intro l f hf
    rw [List.all_eq_true]
    intro x hx
    rw [hf x hx, lineCheck_replicate_blank]
  have hrow : ∀ r ∈ List.range n,
      rowLine ⟨n, ws, blankGrid n, ps, us⟩ r = List.replicate n ' ' := by
    intro r _
    unfold rowLine
    refine List.eq_replicate_iff.mpr ⟨by simp, ?_⟩
    intro b hb
    rcases List.mem_map.mp hb with ⟨c, _, rfl⟩
    exact hblank r c
  have hcol : ∀ c ∈ List.range n,
      colLine ⟨n, ws, blankGrid n, ps, us⟩ c = List.replicate n ' ' := by
    intro c _
    unfold colLine
    refine List.eq_replicate_iff.mpr ⟨by simp, ?_⟩
    intro b hb
    rcases List.mem_map.mp hb with ⟨r, _, rfl⟩
    exact hblank r c
  have htriple : (List.range n).all (fun i =>
      (List.range (n - 2)).all (fun j =>
        !(tripleAtH ⟨n, ws, blankGrid n, ps, us⟩ i j) &&
        !(tripleAtV ⟨n, ws, blankGrid n, ps, us⟩ i j))) = true := by
    rw [List.all_eq_true]
    intro i _
    rw [List.all_eq_true]
    intro j _
    simp [tripleAtH, tripleAtV, hblank]
  rw [htriple, hline (List.range n) _ hrow, hline (List.range n) _ hcol]
  rfl

/-! ## Claim C8 -/

/-- C8 counterexample: the constructor does not deduplicate.  Two raw entries
with the same word text both survive `__init__`, so the resulting list has two
entries with equal text. -/
theorem C8_counterexample :
    (mkWords [⟨['A', 'B'], ["x"]⟩, ⟨['A', 'B'], ["y"]⟩]).length = 2 ∧
      (mkWords [⟨['A', 'B'], ["x"]⟩, ⟨['A', 'B'], ["y"]⟩]).getD 0 default ≠
        (mkWords [⟨['A', 'B'], ["x"]⟩, ⟨['A', 'B'], ["y"]⟩]).getD 1 default ∧
      ((mkWords [⟨['A', 'B'], ["x"]⟩, ⟨['A', 'B'], ["y"]⟩]).getD 0 default).text =
        ((mkWords [⟨['A', 'B'], ["x"]⟩, ⟨['A', 'B'], ["y"]⟩]).getD 1 default).text := by
  refine ⟨rfl, ?_, rfl⟩
  decide

/-- C8 amended: after construction the word list contains exactly the input
entries whose uppercased text is alphabetic with length in `[2, 15]`,
normalized to uppercase, sorted by descending text length with ties kept in
original input order — but it is not deduplicated: entries with equal text are
all retained.  Formally: the list is a permutation of the uppercased filtered
input, it is sorted by the descending-length relation, and for every length
the sublist of entries of that length equals the corresponding sublist of the
filtered input (stability). -/
theorem C8_amended_ctor_list (input : List Word') :
    ((mkWords input).Perm
        ((input.map normWord).filter (fun w => isValidWordText w.text))) ∧
      (mkWords input).Sorted lenDescRel ∧
      (∀ k : Nat, (mkWords input).filter (fun w => w.text.length == k) =
        ((input.map normWord).filter
          (fun w => isValidWordText w.text)).filter
            (fun w => w.text.length == k)) := by
  refine ⟨List.perm_insertionSort lenDescRel _,
    List.sorted_insertionSort lenDescRel _, ?_⟩
  intro k
  have hpair : (((input.map normWord).filter
      (fun w => isValidWordText w.text)).filter
        (fun w => w.text.length == k)).Pairwise lenDescRel := by
    apply List.pairwise_of_forall_mem_list
    intro a ha b hb
    have ha' : a.text.length = k := by simpa using (List.mem_filter.mp ha).2
    have hb' : b.text.length = k := by simpa using (List.mem_filter.mp hb).2
    unfold lenDescRel
    omega
  have hsub : List.Sublist
      (((input.map normWord).filter (fun w => isValidWordText w.text)).filter
        (fun w => w.text.length == k))
      (mkWords input) :=
    List.sublist_insertionSort hpair (List.filter_sublist _)
  have hself : (((input.map normWord).filter
      (fun w => isValidWordText w.text)).filter
        (fun w => w.text.length == k)).filter
          (fun w => w.text.length == k) =
      ((input.map normWord).filter (fun w => isValidWordText w.text)).filter
        (fun w => w.text.length == k) :=
    List.filter_eq_self.mpr (fun a ha => (List.mem_filter.mp ha).2)
  have hsub2 := hsub.filter (fun w => w.text.length == k)
  rw [hself] at hsub2
  have hperm : ((mkWords input).filter (fun w => w.text.length == k)).Perm
      (((input.map normWord).filter (fun w => isValidWordText w.text)).filter
        (fun w => w.text.length == k)) :=
    (List.perm_insertionSort lenDescRel _).filter _
  exact (hsub2.eq_of_length hperm.length_eq.symm).symm

/-! ## Claim C2: specification-side notion of maximal runs -/

/-- The cells `i .. j` of the line form a maximal run of non-Blank,
non-Black cells: all of them are letter cells, and the run can be extended
neither to the left nor to the right. -/
def IsMaxRunAt (l : List Char) (i j : Nat) : Prop :=
  i ≤ j ∧ j < l.length ∧
  (∀ k, i ≤ k → k ≤ j → isSep (l.getD k ' ') = false) ∧
  (i = 0 ∨ isSep (l.getD (i - 1) ' ') = true) ∧
  (j + 1 = l.length ∨ isSep (l.getD (j + 1) ' ') = true)

/-- The letters of the cells `i .. j` of the line. -/
def runAt (l : List Char) (i j : Nat) : List Char :=
  (l.drop i).take (j + 1 - i)

/-- Specification of full conformance for one line: every maximal run of
length at least 2 spells the text of some Lexicon word. -/
def LineConforms (ws : List Word') (l : List Char) : Prop :=
  ∀ i j, IsMaxRunAt l i j → 2 ≤ j + 1 - i → ∃ w ∈ ws, w.text = runAt l i j

theorem isWordB_iff_mem (ws : List Word') (t : List Char) :
    isWordB ws t = true ↔ ∃ w ∈ ws, w.text = t := by
  simp [isWordB, List.any_eq_true]

theorem getD_append_lt {α : Type} (t u : List α) (k : Nat) (d : α)
    (h : k < t.length) : (t ++ u).getD k d = t.getD k d := by
  induction t generalizing k with
  | nil => simp at h
  | cons a t' ih =>
    cases k with
    | zero => rfl
    | succ k' => exact ih k' (by simpa using h)

theorem getD_append_ge {α : Type} (t u : List α) (k : Nat) (d : α)
    (h : t.length ≤ k) : (t ++ u).getD k d = u.getD (k - t.length) d := by
  induction t generalizing k with
  | nil => simp
  | cons a t' ih =>
    cases k with
    | zero => simp at h
    | succ k' =>
      have := ih k' (by simpa using h)
      simpa using this

theorem drop_append_len {α : Type} (t u : List α) (n : Nat) :
    (t ++ u).drop (t.length + n) = u.drop n := by
  induction t with
  | nil => simp
  | cons a t' ih => simpa [Nat.succ_add] using ih

theorem getD_mem_of_lt {α : Type} (l : List α) (k : Nat) (d : α)
    (h : k < l.length) : l.getD k d ∈ l := by
  rw [List.getD_eq_getElem?_getD, List.getElem?_eq_getElem h]
  exact List.getElem_mem h

theorem dropWhile_head_false {α : Type} (p : α → Bool) (l : List α)
    (c : α) (rest : List α) (h : l.dropWhile p = c :: rest) : p c = false := by
  induction l with
  | nil => simp [List.dropWhile] at h
  | cons a t ih =>
    rw [List.dropWhile] at h
    cases hp : p a with
    | true =>
      rw [hp] at h
      exact ih h
    | false =>
      rw [hp] at h
      cases h
      exact hp

theorem splitRunsF_sepfree (l : List Char)
    (hl : ∀ ch ∈ l, isSep ch = false) : splitRunsF l = (l, []) := by
  induction l with
  | nil => rfl
  | cons ch t ih =>
    have hch := hl ch (List.mem_cons_self ch t)
    have ht := ih (fun x hx => hl x (List.mem_cons_of_mem ch hx))
    simp [splitRunsF, hch, ht]

theorem splitRunsF_append_sep (t : List Char) (c : Char) (rest : List Char)
    (ht : ∀ ch ∈ t, isSep ch = false) (hc : isSep c = true) :
    splitRunsF (t ++ c :: rest) =
      (t, (splitRunsF rest).1 :: (splitRunsF rest).2) := by
  induction t with
  | nil => simp [splitRunsF, hc]
  | cons ch t' ih =>
    have hch := ht ch (List.mem_cons_self ch t')
    have := ih (fun x hx => ht x (List.mem_cons_of_mem ch hx))
    simp [splitRunsF, hch, this]

theorem runAt_append_first (t : List Char) (c : Char) (rest : List Char)
    (h1 : 1 ≤ t.length) :
    runAt (t ++ c :: rest) 0 (t.length - 1) = t := by
  unfold runAt
  rw [List.drop_zero]
  have : t.length - 1 + 1 - 0 = t.length := by omega
  rw [this, List.take_left]

theorem runAt_append_shift (t : List Char) (c : Char) (rest : List Char)
    (i' j' : Nat) :
    runAt (t ++ c :: rest) (i' + t.length + 1) (j' + t.length + 1) =
      runAt rest i' j' := by
  unfold runAt
  have e3 : j' + t.length + 1 + 1 - (i' + t.length + 1) = j' + 1 - i' := by
    omega
  have e1 : i' + t.length + 1 = t.length + (i' + 1) := by omega
  rw [e3, e1, drop_append_len]
  simp

/-- Characterisation of the maximal runs of `t ++ c :: rest` for a sep-free
prefix `t` and a separator `c`: either the run is `t` itself, or it is a
maximal run of `rest`, shifted. -/
theorem isMaxRunAt_append_sep (t : List Char) (c : Char) (rest : List Char)
    (ht : ∀ ch ∈ t, isSep ch = false) (hc : isSep c = true) (i j : Nat) :
    IsMaxRunAt (t ++ c :: rest) i j ↔
      ((i = 0 ∧ j + 1 = t.length) ∨
       (∃ i' j', IsMaxRunAt rest i' j' ∧
          i = i' + t.length + 1 ∧ j = j' + t.length + 1)) := by
  have hlen : (t ++ c :: rest).length = t.length + 1 + rest.length := by
    simp [List.length_append]
    omega
  have hsept : isSep ((t ++ c :: rest).getD t.length ' ') = true := by
    rw [getD_append_ge _ _ _ _ (Nat.le_refl _), Nat.sub_self]
    exact hc
  have hshift : ∀ k : Nat, t.length + 1 ≤ k →
      (t ++ c :: rest).getD k ' ' = rest.getD (k - t.length - 1) ' ' := by
    intro k hk
    rw [getD_append_ge _ _ _ _ (by omega)]
    have e : k - t.length = (k - t.length - 1) + 1 := by omega
    rw [e]
    rfl
  constructor
  · rintro ⟨h1, h2, h3, h4, h5⟩
    by_cases hi : i < t.length
    · left
      have hj : j < t.length := by
        by_contra hj'
        have hk := h3 t.length (by omega) (by omega)
        rw [hsept] at hk
        cases hk
      refine ⟨?_, ?_⟩
      · by_cases hi0 : i = 0
        · exact hi0
        · exfalso
          rcases h4 with h' | h'
          · exact hi0 h'
          · have hm : (t ++ c :: rest).getD (i - 1) ' ' = t.getD (i - 1) ' ' :=
              getD_append_lt _ _ _ _ (by omega)
            rw [hm, ht _ (getD_mem_of_lt _ _ _ (by omega))] at h'
            cases h'
      · rcases h5 with h' | h'
        · omega
        · by_cases hj1 : j + 1 < t.length
          · exfalso
            have hm : (t ++ c :: rest).getD (j + 1) ' ' =
                t.getD (j + 1) ' ' := getD_append_lt _ _ _ _ hj1
            rw [hm, ht _ (getD_mem_of_lt _ _ _ hj1)] at h'
            cases h'
          · omega
    · right
      have hne : i ≠ t.length := by
        intro he
        have hk := h3 i (Nat.le_refl _) h1
        rw [he, hsept] at hk
        cases hk
      have hit : t.length + 1 ≤ i := by omega
      refine ⟨i - t.length - 1, j - t.length - 1,
        ⟨by omega, by omega, ?_, ?_, ?_⟩, by omega, by omega⟩
      · intro k' hk1 hk2
        have hk := h3 (k' + t.length + 1) (by omega) (by omega)
        rw [hshift _ (by omega)] at hk
        have e : k' + t.length + 1 - t.length - 1 = k' := by omega
        rwa [e] at hk
      · rcases h4 with h' | h'
        · omega
        · by_cases hi1 : i = t.length + 1
          · left
            omega
          · right
            have e : i - 1 - t.length - 1 = i - t.length - 1 - 1 := by omega
            rw [hshift (i - 1) (by omega), e] at h'
            exact h'
      · rcases h5 with h' | h'
        · left
          omega
        · right
          have e : j + 1 - t.length - 1 = j - t.length - 1 + 1 := by omega
          rw [hshift (j + 1) (by omega), e] at h'
          exact h'
  · rintro (⟨rfl, hj⟩ | ⟨i', j', ⟨g1, g2, g3, g4, g5⟩, rfl, rfl⟩)
    · refine ⟨by omega, by omega, ?_, Or.inl rfl, ?_⟩
      · intro k _ hk2
        rw [getD_append_lt _ _ _ _ (by omega)]
        exact ht _ (getD_mem_of_lt _ _ _ (by omega))
      · right
        have e : j + 1 = t.length := hj
        rw [e]
        exact hsept
    · refine ⟨by omega, by omega, ?_, ?_, ?_⟩
      · intro k hk1 hk2
        rw [hshift k (by omega)]
        have hk := g3 (k - t.length - 1) (by omega) (by omega)
        exact hk
      · right
        by_cases hi0 : i' = 0
        · have e : i' + t.length + 1 - 1 = t.length := by omega
          rw [e]
          exact hsept
        · rw [hshift (i' + t.length + 1 - 1) (by omega)]
          have e : i' + t.length + 1 - 1 - t.length - 1 = i' - 1 := by omega
          rw [e]
          rcases g4 with h' | h'
          · omega
          · exact h'
      · rcases g5 with h' | h'
        · left
          omega
        · right
          rw [hshift (j' + t.length + 1 + 1) (by omega)]
          have e : j' + t.length + 1 + 1 - t.length - 1 = j' + 1 := by omega
          rw [e]
          exact h'

/-- Conformance of a line with a sep-free prefix and a separator decomposes
into conformance of the prefix and of the remainder. -/
theorem lineConforms_append_sep (ws : List Word') (t : List Char) (c : Char)
    (rest : List Char) (ht : ∀ ch ∈ t, isSep ch = false)
    (hc : isSep c = true) :
    LineConforms ws (t ++ c :: rest) ↔
      ((2 ≤ t.length → ∃ w ∈ ws, w.text = t) ∧ LineConforms ws rest) := by
  constructor
  · intro h
    refine ⟨?_, ?_⟩
    · intro h2
      have hmax : IsMaxRunAt (t ++ c :: rest) 0 (t.length - 1) :=
        (isMaxRunAt_append_sep t c rest ht hc _ _).mpr
          (Or.inl ⟨rfl, by omega⟩)
      have := h 0 (t.length - 1) hmax (by omega)
      rwa [runAt_append_first t c rest (by omega)] at this
    · intro i' j' hrun hlen'
      have hmax : IsMaxRunAt (t ++ c :: rest) (i' + t.length + 1)
          (j' + t.length + 1) :=
        (isMaxRunAt_append_sep t c rest ht hc _ _).mpr
          (Or.inr ⟨i', j', hrun, rfl, rfl⟩)
      have := h _ _ hmax (by omega)
      rwa [runAt_append_shift] at this
  · rintro ⟨hfirst, hrest⟩ i j hrun hlen'
    rcases (isMaxRunAt_append_sep t c rest ht hc i j).mp hrun with
      ⟨rfl, hj⟩ | ⟨i', j', hrun', rfl, rfl⟩
    · have hjt : j = t.length - 1 := by omega
      subst hjt
      rw [runAt_append_first t c rest (by omega)]
      exact hfirst (by omega)
    · rw [runAt_append_shift]
      exact hrest i' j' hrun' (by omega)

/-- Conformance of a sep-free line amounts to the single run check. -/
theorem lineConforms_sepfree (ws : List Word') (l : List Char)
    (hl : ∀ ch ∈ l, isSep ch = false) :
    LineConforms ws l ↔ (2 ≤ l.length → ∃ w ∈ ws, w.text = l) := by
  have hrunAt : 1 ≤ l.length → runAt l 0 (l.length - 1) = l := by
    intro hone
    unfold runAt
    rw [List.drop_zero]
    have e : l.length - 1 + 1 - 0 = l.length := by omega
    rw [e, List.take_length]
  constructor
  · intro h h2
    have hmax : IsMaxRunAt l 0 (l.length - 1) := by
      refine ⟨by omega, by omega, ?_, Or.inl rfl, Or.inl (by omega)⟩
      intro k _ hk2
      exact hl _ (getD_mem_of_lt _ _ _ (by omega))
    have := h 0 (l.length - 1) hmax (by omega)
    rwa [hrunAt (by omega)] at this
  · intro h i j hrun hlen'
    obtain ⟨h1, h2, h3, h4, h5⟩ := hrun
    have hi : i = 0 := by
      by_cases hi0 : i = 0
      · exact hi0
      · exfalso
        rcases h4 with h' | h'
        · exact hi0 h'
        · rw [hl _ (getD_mem_of_lt _ _ _ (by omega))] at h'
          cases h'
    have hj : j + 1 = l.length := by
      rcases h5 with h' | h'
      · exact h'
      · by_cases hj1 : j + 1 < l.length
        · exfalso
          rw [hl _ (getD_mem_of_lt _ _ _ hj1)] at h'
          cases h'
        · omega
    subst hi
    have hjl : j = l.length - 1 := by omega
    subst hjl
    rw [hrunAt (by omega)]
    exact h (by omega)

/-- The Boolean run check over the segments of a line is equivalent to the
conformance specification over its maximal runs. -/
theorem lineRuns_all_iff_conforms (ws : List Word') :
    ∀ (n : Nat) (l : List Char), l.length ≤ n →
      ((lineRuns l).all (runOKb ws) = true ↔ LineConforms ws l) := by
  intro n
  induction n with
  | zero =>
    intro l hl
    have : l = [] := List.eq_nil_of_length_eq_zero (by omega)
    subst this
    constructor
    · intro _ i j hrun _
      obtain ⟨h1, h2, _⟩ := hrun
      simp at h2
    · intro _
      simp [lineRuns, splitRunsF, runOKb]
  | succ m ih =>
    intro l hl
    have hsplit := (List.takeWhile_append_dropWhile
      (p := fun ch => !(isSep ch)) (l := l)).symm
    set t := l.takeWhile (fun ch => !(isSep ch)) with hT
    set d := l.dropWhile (fun ch => !(isSep ch)) with hD
    have ht : ∀ ch ∈ t, isSep ch = false := by
      intro ch hch
      have := List.mem_takeWhile_imp hch
      simpa using this
    cases hd : d with
    | nil =>
      rw [hd] at hsplit
      rw [List.append_nil] at hsplit
      rw [hsplit]
      rw [lineConforms_sepfree ws t ht]
      unfold lineRuns
      rw [splitRunsF_sepfree t ht]
      simp only [List.all_cons, List.all_nil, Bool.and_true]
      unfold runOKb
      rw [Bool.or_eq_true, decide_eq_true_eq, isWordB_iff_mem]
      constructor
      · intro h h2
        rcases h with h | h
        · omega
        · exact h
      · intro h
        by_cases h2 : 2 ≤ t.length
        · exact Or.inr (h h2)
        · exact Or.inl (by omega)
    | cons c rest =>
      have hc : isSep c = true := by
        have := dropWhile_head_false (fun ch => !(isSep ch)) l c rest
          (by rw [← hD, hd])
        simpa using this
      rw [hd] at hsplit
      rw [hsplit]
      have hlenrest : rest.length ≤ m := by
        have : l.length = t.length + 1 + rest.length := by
          rw [hsplit]
          simp [List.length_append]
          omega
        omega
      have ihrest := ih rest hlenrest
      rw [lineConforms_append_sep ws t c rest ht hc]
      unfold lineRuns
      rw [splitRunsF_append_sep t c rest ht hc]
      simp only [List.all_cons]
      have hruns : ((splitRunsF rest).1 :: (splitRunsF rest).2).all
          (runOKb ws) = (lineRuns rest).all (runOKb ws) := rfl
      rw [Bool.and_eq_true, List.all_cons] at *
      constructor
      · rintro ⟨hA, hB⟩
        refine ⟨?_, ?_⟩
        · intro h2
          unfold runOKb at hA
          rw [Bool.or_eq_true, decide_eq_true_eq, isWordB_iff_mem] at hA
          rcases hA with h | h
          · omega
          · exact h
        · exact ihrest.mp (by rw [← hruns] at *; exact hB)
      · rintro ⟨hA, hB⟩
        refine ⟨?_, ?_⟩
        · unfold runOKb
          rw [Bool.or_eq_true, decide_eq_true_eq, isWordB_iff_mem]
          by_cases h2 : 2 ≤ t.length
          · exact Or.inr (hA h2)
          · exact Or.inl (by omega)
        · rw [hruns]
          exact ihrest.mpr hB

/-- The line scan of `_check_all_letter_sequences` decides exactly the
maximal-run conformance of the line. -/
theorem lineCheck_iff_conforms (ws : List Word') (l : List Char) :
    lineCheck ws l [] = true ↔ LineConforms ws l := by
  rw [lineCheck_eq_runs ws l []]
  have : runOKb ws ([] ++ (splitRunsF l).1) = runOKb ws (splitRunsF l).1 := by
    rw [List.nil_append]
  rw [this]
  have e : (runOKb ws (splitRunsF l).1 && (splitRunsF l).2.all (runOKb ws)) =
      (lineRuns l).all (runOKb ws) := by
    unfold lineRuns
    rw [List.all_cons]
  rw [e]
  exact lineRuns_all_iff_conforms ws l.length l (Nat.le_refl _)

/-- C2: `_validate_grid` returns `True` exactly when (1) no row and no column
contains three consecutive Black cells, and (2) every maximal horizontal or
vertical run of non-Blank, non-Black cells of length at least 2 spells the
text of some word of the Lexicon (shorter runs are ignored). -/
theorem C2_validate_iff (st : GenState) :
    validateGrid st = true ↔
      ((∀ i j, i < st.size → j + 2 < st.size →
          ¬(getLetter st i j = '#' ∧ getLetter st i (j + 1) = '#' ∧
            getLetter st i (j + 2) = '#')) ∧
       (∀ i j, i < st.size → j + 2 < st.size →
          ¬(getLetter st j i = '#' ∧ getLetter st (j + 1) i = '#' ∧
            getLetter st (j + 2) i = '#')) ∧
       (∀ r, r < st.size → LineConforms st.words (rowLine st r)) ∧
       (∀ c, c < st.size → LineConforms st.words (colLine st c))) := by
  unfold validateGrid checkAllLetterSequences
  rw [Bool.and_eq_true, Bool.and_eq_true]
  constructor
  · rintro ⟨htrip, hrows, hcols⟩
    rw [List.all_eq_true] at htrip hrows hcols
    refine ⟨?_, ?_, ?_, ?_⟩
    · intro i j hi hj
      have := htrip i (List.mem_range.mpr hi)
      rw [List.all_eq_true] at this
      have hj' := this j (List.mem_range.mpr (by omega))
      rw [Bool.and_eq_true] at hj'
      have h1 := hj'.1
      unfold tripleAtH at h1
      intro ⟨e1, e2, e3⟩
      rw [e1, e2, e3] at h1
      simp at h1
    · intro i j hi hj
      have := htrip i (List.mem_range.mpr hi)
      rw [List.all_eq_true] at this
      have hj' := this j (List.mem_range.mpr (by omega))
      rw [Bool.and_eq_true] at hj'
      have h2 := hj'.2
      unfold tripleAtV at h2
      intro ⟨e1, e2, e3⟩
      rw [e1, e2, e3] at h2
      simp at h2
    · intro r hr
      exact (lineCheck_iff_conforms st.words (rowLine st r)).mp
        (hrows r (List.mem_range.mpr hr))
    · intro c hc
      exact (lineCheck_iff_conforms st.words (colLine st c)).mp
        (hcols c (List.mem_range.mpr hc))
  · rintro ⟨htripH, htripV, hrows, hcols⟩
    refine ⟨?_, ?_, ?_⟩
    · rw [List.all_eq_true]
      intro i hi
      rw [List.all_eq_true]
      intro j hj
      rw [List.mem_range] at hi hj
      rw [Bool.and_eq_true]
      constructor
      · rw [Bool.not_eq_true', Bool.eq_false_iff]
        intro htr
        unfold tripleAtH at htr
        rw [Bool.and_eq_true, Bool.and_eq_true] at htr
        exact htripH i j hi (by omega)
          ⟨by simpa using htr.1.1, by simpa using htr.1.2,
            by simpa using htr.2⟩
      · rw [Bool.not_eq_true', Bool.eq_false_iff]
        intro htr
        unfold tripleAtV at htr
        rw [Bool.and_eq_true, Bool.and_eq_true] at htr
        exact htripV i j hi (by omega)
          ⟨by simpa using htr.1.1, by simpa using htr.1.2,
            by simpa using htr.2⟩
    · rw [List.all_eq_true]
      intro r hr
      exact (lineCheck_iff_conforms st.words (rowLine st r)).mpr
        (hrows r (List.mem_range.mp hr))
    · rw [List.all_eq_true]
      intro c hc
      exact (lineCheck_iff_conforms st.words (colLine st c)).mpr
        (hcols c (List.mem_range.mp hc))

/-! ## Claim C4: specification of placement legality -/

/-- The word fits fully inside the `size × size` grid at the integer anchor
`(nrI, ncI)` (spec condition (a)). -/
def SpecFits (size : Nat) (nrI ncI : Int) (wlen : Nat) (isH : Bool) : Prop :=
  if isH then
    0 ≤ nrI ∧ nrI < (size : Int) ∧ 0 ≤ ncI ∧ ncI + (wlen : Int) ≤ (size : Int)
  else
    0 ≤ ncI ∧ ncI < (size : Int) ∧ 0 ≤ nrI ∧ nrI + (wlen : Int) ≤ (size : Int)

theorem isValidPositionI_iff (size : Nat) (nrI ncI : Int) (wlen : Nat)
    (isH : Bool) :
    isValidPositionI size nrI ncI wlen isH = true ↔
      SpecFits size nrI ncI wlen isH := by
  cases isH <;> simp [isValidPositionI, SpecFits] <;> omega

/-- Specification of `_can_place_word` as stated by the claim: at the anchor
implied by aligning the word's (first) occurrence of the intersection letter
to the intersection cell, (a) the word fits fully inside the grid, (b) every
cell along the span is Blank or holds the exact same letter, (c) the cell
immediately before the anchor is Black or off-grid and the cell immediately
after the end is Blank, off-grid or Black, and (d) no cell strictly
above/below (horizontal) or left/right (vertical) of any cell of the span is
Black. -/
def SpecCanPlace (st : GenState) (w : List Char) (row col : Nat)
    (isH : Bool) (letter : Char) : Prop :=
  let off := firstIdx w letter
  let nrI : Int := if isH then (row : Int) else (row : Int) - (off : Int)
  let ncI : Int := if isH then (col : Int) - (off : Int) else (col : Int)
  let nr := nrI.toNat
  let nc := ncI.toNat
  SpecFits st.size nrI ncI w.length isH ∧
  (∀ i, i < w.length →
    getLetter st (if isH then nr else nr + i)
        (if isH then nc + i else nc) = ' ' ∨
      getLetter st (if isH then nr else nr + i)
        (if isH then nc + i else nc) = w.getD i ' ') ∧
  (if isH then
    (0 < nc → getLetter st nr (nc - 1) = '#') ∧
    (nc + w.length < st.size →
      getLetter st nr (nc + w.length) = ' ' ∨
      getLetter st nr (nc + w.length) = '#')
   else
    (0 < nr → getLetter st (nr - 1) nc = '#') ∧
    (nr + w.length < st.size →
      getLetter st (nr + w.length) nc = ' ' ∨
      getLetter st (nr + w.length) nc = '#')) ∧
  (if isH then
    ∀ i, i < w.length →
      (0 < nr → getLetter st (nr - 1) (nc + i) ≠ '#') ∧
      (nr < st.size - 1 → getLetter st (nr + 1) (nc + i) ≠ '#')
   else
    ∀ i, i < w.length →
      (0 < nc → getLetter st (nr + i) (nc - 1) ≠ '#') ∧
      (nc < st.size - 1 → getLetter st (nr + i) (nc + 1) ≠ '#'))

theorem if_guard_true_iff (c : Prop) [Decidable c] (b : Bool) :
    (if c then b else true) = true ↔ (c → b = true) := by
  by_cases h : c
  · simp [h]
  · simp [h]

/-- C4: `_can_place_word` returns `True` if and only if the four spec
conditions (a)-(d) hold at the anchor implied by the intersection letter. -/
theorem C4_canPlaceWord_iff (st : GenState) (w : List Char) (row col : Nat)
    (isH : Bool) (letter : Char) :
    canPlaceWordS st w row col isH letter = true ↔
      SpecCanPlace st w row col isH letter := by
  cases isH
  · simp only [canPlaceWordS, SpecCanPlace, Bool.false_eq_true, if_false,
      if_true]
    by_cases hv : isValidPositionI st.size
        ((row : Int) - (firstIdx w letter : Int)) (col : Int)
        w.length false = true
    · rw [hv, if_neg (by simp)]
      have hvS := (isValidPositionI_iff st.size _ _ w.length false).mp hv
      simp only [hvS, true_and, Bool.and_eq_true, List.all_eq_true,
        List.mem_range, if_guard_true_iff, Bool.or_eq_true, beq_iff_eq,
        Bool.not_eq_true', beq_eq_false_iff_ne]
      constructor
      · rintro ⟨⟨⟨hb, ha⟩, hf⟩, hs⟩
        exact ⟨fun i hi => hs i hi, ⟨hb, ha⟩, fun i hi => hf i hi⟩
      · rintro ⟨hs, ⟨hb, ha⟩, hf⟩
        exact ⟨⟨⟨hb, ha⟩, fun i hi => hf i hi⟩, fun i hi => hs i hi⟩
    · have hvf : isValidPositionI st.size
          ((row : Int) - (firstIdx w letter : Int)) (col : Int)
          w.length false = false := Bool.eq_false_iff.mpr hv
      rw [hvf, if_pos (by simp)]
      constructor
      · intro h
        cases h
      · rintro ⟨hfits, _⟩
        exact absurd ((isValidPositionI_iff st.size _ _ w.length false).mpr
          hfits) hv
  · simp only [canPlaceWordS, SpecCanPlace, Bool.false_eq_true, if_false,
      if_true]
    by_cases hv : isValidPositionI st.size (row : Int)
        ((col : Int) - (firstIdx w letter : Int))
        w.length true = true
    · rw [hv, if_neg (by simp)]
      have hvS := (isValidPositionI_iff st.size _ _ w.length true).mp hv
      simp only [hvS, true_and, Bool.and_eq_true, List.all_eq_true,
        List.mem_range, if_guard_true_iff, Bool.or_eq_true, beq_iff_eq,
        Bool.not_eq_true', beq_eq_false_iff_ne]
      constructor
      · rintro ⟨⟨⟨hb, ha⟩, hf⟩, hs⟩
        exact ⟨fun i hi => hs i hi, ⟨hb, ha⟩, fun i hi => hf i hi⟩
      · rintro ⟨hs, ⟨hb, ha⟩, hf⟩
        exact ⟨⟨⟨hb, ha⟩, fun i hi => hf i hi⟩, fun i hi => hs i hi⟩
    · have hvf : isValidPositionI st.size (row : Int)
          ((col : Int) - (firstIdx w letter : Int))
          w.length true = false := Bool.eq_false_iff.mpr hv
      rw [hvf, if_pos (by simp)]
      constructor
      · intro h
        cases h
      · rintro ⟨hfits, _⟩
        exact absurd ((isValidPositionI_iff st.size _ _ w.length true).mpr
          hfits) hv

/-! ## State-update lemmas for the placement pipeline -/

theorem updAt_length {α : Type} (l : List α) (n : Nat) (f : α → α) :
    (updAt l n f).length = l.length := by
  induction l generalizing n with
  | nil => rfl
  | cons a t ih =>
    cases n with
    | zero => rfl
    | succ n' => simp only [updAt, List.length_cons, ih n']

theorem mem_updAt {α : Type} (l : List α) (n : Nat) (f : α → α) :
    ∀ x ∈ updAt l n f, x ∈ l ∨ ∃ y ∈ l, x = f y := by
  induction l generalizing n with
  | nil => intro x hx; cases hx
  | cons a t ih =>
    cases n with
    | zero =>
      intro x hx
      rcases List.mem_cons.mp hx with h | h
      · exact Or.inr ⟨a, List.mem_cons_self a t, h⟩
      · exact Or.inl (List.mem_cons_of_mem a h)
    | succ n' =>
      intro x hx
      rcases List.mem_cons.mp hx with h | h
      · exact Or.inl (h ▸ List.mem_cons_self a t)
      · rcases ih n' x h with h' | ⟨y, hy, hxy⟩
        · exact Or.inl (List.mem_cons_of_mem a h')
        · exact Or.inr ⟨y, List.mem_cons_of_mem a hy, hxy⟩

/-- Well-formedness of the grid: `size` rows of `size` cells. -/
def WFGrid (st : GenState) : Prop :=
  st.grid.length = st.size ∧ ∀ rw ∈ st.grid, rw.length = st.size

theorem WFGrid_updCell (st : GenState) (r c : Nat) (f : Cell → Cell)
    (h : WFGrid st) : WFGrid (updCell st r c f) := by
  obtain ⟨h1, h2⟩ := h
  refine ⟨by simpa [updCell, updAt_length] using h1, ?_⟩
  intro rw hrw
  rcases mem_updAt _ _ _ rw hrw with h' | ⟨y, hy, rfl⟩
  · exact h2 rw h'
  · simpa [updAt_length] using h2 y hy

/-- A cell update commutes with any cell projection it preserves. -/
theorem getCell_proj_updCell {β : Type} (g : Cell → β) (st : GenState)
    (r c : Nat) (f : Cell → Cell) (hf : ∀ cell, g (f cell) = g cell)
    (r' c' : Nat) :
    g (getCell (updCell st r c f) r' c') = g (getCell st r' c') := by
  by_cases h : r' = r ∧ c' = c
  · obtain ⟨rfl, rfl⟩ := h
    rcases getCell_updCell_self st r' c' f with h' | h'
    · rw [h', hf]
    · rw [h']
  · rw [getCell_updCell_ne st r c f r' c' h]

/-- In-range cell update applies the function at the target cell. -/
theorem getCell_updCell_self_of_lt (st : GenState) (r c : Nat)
    (f : Cell → Cell) (hr : r < st.grid.length)
    (hc : c < (st.grid.getD r []).length) :
    getCell (updCell st r c f) r c = f (getCell st r c) := by
  unfold updCell getCell
  simp only
  rw [updAt_getD_self, if_pos hr, updAt_getD_self, if_pos hc]

theorem getLetter_setLetter_self (st : GenState) (r c : Nat) (ch : Char)
    (hr : r < st.grid.length) (hc : c < (st.grid.getD r []).length) :
    getLetter (setLetter st r c ch) r c = ch := by
  unfold getLetter setLetter
  rw [getCell_updCell_self_of_lt st r c _ hr hc]

theorem getLetter_setLetter_ne (st : GenState) (r c : Nat) (ch : Char)
    (r' c' : Nat) (h : ¬(r' = r ∧ c' = c)) :
    getLetter (setLetter st r c ch) r' c' = getLetter st r' c' := by
  unfold getLetter setLetter
  rw [getCell_updCell_ne st r c _ r' c' h]

/-- `setLetter` never changes a clue number. -/
theorem number_setLetter (st : GenState) (r c : Nat) (ch : Char)
    (r' c' : Nat) :
    (getCell (setLetter st r c ch) r' c').number =
      (getCell st r' c').number := by
  unfold setLetter
  exact getCell_proj_updCell (fun cell => cell.number) st r c
    (fun cell => { cell with letter := ch }) (fun _ => rfl) r' c'

/-- `setNumber` and `setStartFlags` never change a letter. -/
theorem letter_setNumber (st : GenState) (r c n : Nat) (r' c' : Nat) :
    getLetter (setNumber st r c n) r' c' = getLetter st r' c' := by
  unfold getLetter setNumber
  exact getCell_proj_updCell (fun cell => cell.letter) st r c
    (fun cell => { cell with number := some n }) (fun _ => rfl) r' c'

theorem letter_setStartFlags (st : GenState) (r c : Nat) (isH : Bool)
    (r' c' : Nat) :
    getLetter (setStartFlags st r c isH) r' c' = getLetter st r' c' := by
  unfold getLetter setStartFlags
  refine getCell_proj_updCell (fun cell => cell.letter) st r c _ ?_ r' c'
  intro cell
  cases isH <;> rfl

theorem number_setStartFlags (st : GenState) (r c : Nat) (isH : Bool)
    (r' c' : Nat) :
    (getCell (setStartFlags st r c isH) r' c').number =
      (getCell st r' c').number := by
  unfold setStartFlags
  refine getCell_proj_updCell (fun cell => cell.number) st r c _ ?_ r' c'
  intro cell
  cases isH <;> rfl

/-- Record fields other than the grid are untouched by cell updates. -/
theorem updCell_fields (st : GenState) (r c : Nat) (f : Cell → Cell) :
    (updCell st r c f).size = st.size ∧
    (updCell st r c f).words = st.words ∧
    (updCell st r c f).word_positions = st.word_positions ∧
    (updCell st r c f).used_words = st.used_words :=
  ⟨rfl, rfl, rfl, rfl⟩

/-- The result state of `_try_add_black_cell` is the input state, possibly
with one letter cell written. -/
theorem tryAddBlackCell_cases (st : GenState) (r c : Nat) :
    (tryAddBlackCell st r c).2 = st ∨
      (tryAddBlackCell st r c).2 = setLetter st r c '#' := by
  unfold tryAddBlackCell
  by_cases h1 : (decide (0 < r) && decide (r < st.size - 1) &&
      decide (0 < c) && decide (c < st.size - 1)) = true
  · rw [if_pos h1]
    by_cases h2 : (!(wouldCreateTripleBlack st r c)) = true
    · rw [if_pos h2]
      by_cases h3 : canAddBlackCell st r c = true
      · rw [if_pos h3]
        exact Or.inr rfl
      · rw [if_neg h3]
        exact Or.inl rfl
    · rw [if_neg h2]
      exact Or.inl rfl
  · rw [if_neg h1]
    exact Or.inl rfl

/-- The result state of the adjacency check is the input state, possibly with
one letter cell written. -/
theorem checkAdjLoop_cases (st : GenState) (w : List Char) (row col : Nat)
    (isH : Bool) :
    ∀ (fuel i : Nat),
      (checkAdjLoop st w row col isH i fuel).2 = st ∨
        ∃ r c, (checkAdjLoop st w row col isH i fuel).2 =
          setLetter st r c '#' := by
  intro fuel
  induction fuel with
  | zero => intro i; exact Or.inl rfl
  | succ m ih =>
    intro i
    unfold checkAdjLoop
    by_cases hi : i < w.length
    · rw [if_pos hi]
      dsimp only
      split
      · split
        · split
          · split
            · exact (tryAddBlackCell_cases st _ _).imp (fun h => h)
                (fun h => ⟨_, _, h⟩)
            · exact ih (i + 1)
          · exact ih (i + 1)
        · exact ih (i + 1)
      · split
        · split
          · split
            · exact (tryAddBlackCell_cases st _ _).imp (fun h => h)
                (fun h => ⟨_, _, h⟩)
            · exact ih (i + 1)
          · exact ih (i + 1)
        · exact ih (i + 1)
    · rw [if_neg hi]
      exact Or.inl rfl

theorem checkAdjacentWordsS_cases (st : GenState) (w : List Char)
    (row col : Nat) (isH : Bool) :
    (checkAdjacentWordsS st w row col isH).2 = st ∨
      ∃ r c, (checkAdjacentWordsS st w row col isH).2 =
        setLetter st r c '#' := by
  unfold checkAdjacentWordsS
  by_cases h : (!(isWordB st.words w)) = true
  · rw [if_pos h]
    exact Or.inl rfl
  · rw [if_neg h]
    exact checkAdjLoop_cases st w row col isH w.length 0

theorem WFGrid_setLetter (st : GenState) (r c : Nat) (ch : Char)
    (h : WFGrid st) : WFGrid (setLetter st r c ch) :=
  WFGrid_updCell st r c _ h

theorem size_setLetter (st : GenState) (r c : Nat) (ch : Char) :
    (setLetter st r c ch).size = st.size := rfl

/-- The letter writes of `_place_word` leave every cell outside the span
(at offsets `j`, `j+1`, ...) unchanged. -/
theorem getLetter_writeLettersGo_other (row col : Nat) (isH : Bool) :
    ∀ (w : List Char) (st : GenState) (j : Nat) (r c : Nat),
      (∀ k, k < w.length →
        ¬(r = (if isH then row else row + (j + k)) ∧
          c = (if isH then col + (j + k) else col))) →
      getLetter (writeLettersGo row col isH st w j) r c =
        getLetter st r c := by
  intro w
  induction w with
  | nil => intro st j r c _; rfl
  | cons ch rest ih =>
    intro st j r c h
    unfold writeLettersGo
    rw [ih _ (j + 1) r c ?side]
    · rw [getLetter_setLetter_ne]
      have h0 := h 0 (by simp)
      simpa using h0
    case side =>
      intro k hk
      have := h (k + 1) (by simpa using hk)
      have e : j + (k + 1) = j + 1 + k := by omega
      rw [e] at this
      exact this

theorem WFGrid_writeLettersGo (row col : Nat) (isH : Bool) :
    ∀ (w : List Char) (st : GenState) (j : Nat), WFGrid st →
      WFGrid (writeLettersGo row col isH st w j) := by
  intro w
  induction w with
  | nil => intro st j h; exact h
  | cons ch rest ih =>
    intro st j h
    exact ih _ (j + 1) (WFGrid_setLetter _ _ _ _ h)

theorem size_writeLettersGo (row col : Nat) (isH : Bool) :
    ∀ (w : List Char) (st : GenState) (j : Nat),
      (writeLettersGo row col isH st w j).size = st.size := by
  intro w
  induction w with
  | nil => intro st j; rfl
  | cons ch rest ih => intro st j; exact ih _ (j + 1)

/-- The letter writes of `_place_word` put letter `i` of the word at offset
`j + i` from the anchor. -/
theorem getLetter_writeLettersGo_span (row col : Nat) (isH : Bool) :
    ∀ (w : List Char) (st : GenState) (j : Nat), WFGrid st →
      (∀ i, i < w.length →
        (if isH then row else row + (j + i)) < st.size ∧
        (if isH then col + (j + i) else col) < st.size) →
      ∀ i, i < w.length →
        getLetter (writeLettersGo row col isH st w j)
          (if isH then row else row + (j + i))
          (if isH then col + (j + i) else col) = w.getD i ' ' := by
  intro w
  induction w with
  | nil => intro st j _ _ i hi; cases hi
  | cons ch rest ih =>
    intro st j hWF hin i hi
    unfold writeLettersGo
    cases i with
    | zero =>
      rw [getLetter_writeLettersGo_other row col isH rest _ (j + 1) _ _ ?off]
      · have hb := hin 0 (by simp)
        have hWF1 := hWF
        obtain ⟨hg, hrows⟩ := hWF1
        have hr : (if isH then row else row + (j + 0)) < st.grid.length := by
          rw [hg]
          exact hb.1
        have hc : (if isH then col + (j + 0) else col) <
            (st.grid.getD (if isH then row else row + (j + 0)) []).length := by
          rw [hrows _ (getD_mem_of_lt _ _ _ hr)]
          exact hb.2
        have := getLetter_setLetter_self st
          (if isH then row else row + (j + 0))
          (if isH then col + (j + 0) else col) ch hr hc
        simpa using this
      case off =>
        intro k hk
        cases isH <;> simp <;> omega
    | succ i' =>
      have hin' : ∀ i, i < rest.length →
          (if isH then row else row + (j + 1 + i)) <
            (setLetter st (if isH then row else row + j)
              (if isH then col + j else col) ch).size ∧
          (if isH then col + (j + 1 + i) else col) <
            (setLetter st (if isH then row else row + j)
              (if isH then col + j else col) ch).size := by
        intro k hk
        rw [size_setLetter]
        have := hin (k + 1) (by simpa using hk)
        have e : j + (k + 1) = j + 1 + k := by omega
        rw [e] at this
        exact this
      have := ih (setLetter st (if isH then row else row + j)
          (if isH then col + j else col) ch) (j + 1)
          (WFGrid_setLetter _ _ _ _ hWF) hin' i' (by simpa using hi)
      have e : j + 1 + i' = j + (i' + 1) := by omega
      rw [e] at this
      have e2 : (if isH then row else row + j) =
          (if isH then row else row + (j + 0)) := by
        cases isH <;> simp
      simpa using this

/-- `_add_black_cells_around_word` leaves the span of the word unchanged. -/
theorem getLetter_addBlackAround_span (st : GenState) (row col wl : Nat)
    (isH : Bool) (i : Nat) (hi : i < wl) :
    getLetter (addBlackAround st row col wl isH)
      (if isH then row else row + i) (if isH then col + i else col) =
      getLetter st (if isH then row else row + i)
        (if isH then col + i else col) := by
  unfold addBlackAround
  cases isH
  · simp only [Bool.false_eq_true, if_false]
    have step1 : ∀ st0 : GenState,
        getLetter (if 0 < row then
            (if !(decide (1 < row) && getLetter st0 (row - 2) col == '#') then
              setLetter st0 (row - 1) col '#' else st0) else st0)
          (row + i) col = getLetter st0 (row + i) col := by
      intro st0
      by_cases h1 : 0 < row
      · rw [if_pos h1]
        by_cases h2 : (!(decide (1 < row) &&
            getLetter st0 (row - 2) col == '#')) = true
        · rw [if_pos h2, getLetter_setLetter_ne]
          intro hcon
          omega
        · rw [if_neg h2]
      · rw [if_neg h1]
    by_cases h3 : row + wl < st.size
    · rw [if_pos h3]
      by_cases h4 : (!(decide (row + wl < st.size - 1) &&
          getLetter (if 0 < row then
            (if !(decide (1 < row) && getLetter st (row - 2) col == '#') then
              setLetter st (row - 1) col '#' else st) else st)
            (row + wl + 1) col == '#')) = true
      · rw [if_pos h4, getLetter_setLetter_ne]
        · exact step1 st
        · intro hcon
          omega
      · rw [if_neg h4]
        exact step1 st
    · rw [if_neg h3]
      exact step1 st
  · simp only [if_true]
    have step1 : ∀ st0 : GenState,
        getLetter (if 0 < col then
            (if !(decide (1 < col) && getLetter st0 row (col - 2) == '#') then
              setLetter st0 row (col - 1) '#' else st0) else st0)
          row (col + i) = getLetter st0 row (col + i) := by
      intro st0
      by_cases h1 : 0 < col
      · rw [if_pos h1]
        by_cases h2 : (!(decide (1 < col) &&
            getLetter st0 row (col - 2) == '#')) = true
        · rw [if_pos h2, getLetter_setLetter_ne]
          intro hcon
          omega
        · rw [if_neg h2]
      · rw [if_neg h1]
    by_cases h3 : col + wl < st.size
    · rw [if_pos h3]
      by_cases h4 : (!(decide (col + wl < st.size - 1) &&
          getLetter (if 0 < col then
            (if !(decide (1 < col) && getLetter st row (col - 2) == '#') then
              setLetter st row (col - 1) '#' else st) else st)
            row (col + wl + 1) == '#')) = true
      · rw [if_pos h4, getLetter_setLetter_ne]
        · exact step1 st
        · intro hcon
          omega
      · rw [if_neg h4]
        exact step1 st
    · rw [if_neg h3]
      exact step1 st

/-- The adjacency check preserves every state field except (possibly) one
letter cell of the grid. -/
theorem checkAdj_pres (st : GenState) (w : List Char) (row col : Nat)
    (isH : Bool) :
    (checkAdjacentWordsS st w row col isH).2.size = st.size ∧
    (checkAdjacentWordsS st w row col isH).2.words = st.words ∧
    (checkAdjacentWordsS st w row col isH).2.word_positions =
      st.word_positions ∧
    (checkAdjacentWordsS st w row col isH).2.used_words = st.used_words ∧
    (WFGrid st → WFGrid (checkAdjacentWordsS st w row col isH).2) ∧
    (∀ r c, (getCell (checkAdjacentWordsS st w row col isH).2 r c).number =
      (getCell st r c).number) := by
  rcases checkAdjacentWordsS_cases st w row col isH with h | ⟨r, c, h⟩ <;>
    rw [h]
  · exact ⟨rfl, rfl, rfl, rfl, fun hw => hw, fun _ _ => rfl⟩
  · exact ⟨rfl, rfl, rfl, rfl, WFGrid_setLetter st r c '#',
      fun r' c' => number_setLetter st r c '#' r' c'⟩

/-! ## Claim C5 -/

/-- C5 counterexample state: a 5×5 grid holding a single crossing letter `Z`
above the span of the word `AB` about to be placed at row 2, columns 2-3.
The vertical run read at `(2, 2)` (`Z` alone, since the target cell is Blank
the run stops there) is not a Lexicon word, so the check blackens `(2, 2)` as
a remedy — and `_place_word` then overwrites that Black with `A`. -/
def stRemedy : GenState :=
  { size := 5
    words := [⟨['A', 'B'], ["ab"]⟩]
    grid := [[{}, {}, {}, {}, {}],
             [{}, {}, { letter := 'Z' }, {}, {}],
             [{}, {}, {}, {}, {}],
             [{}, {}, {}, {}, {}],
             [{}, {}, {}, {}, {}]]
    word_positions := []
    used_words := [] }

/-- C5 is false as stated: on `stRemedy`, placing `AB` at `(2, 2)` takes the
blacken-remedy path (the adjacency check leaves `(2, 2)` Black), the
insertion is accepted — but in the resulting grid the offending cell holds
the word's letter `A`, not Black.  (Also visible: the reconstructed
perpendicular run is `Z`, not the after-insertion run `ZA`.) -/
theorem C5_counterexample :
    (checkAdjacentWordsS stRemedy ['A', 'B'] 2 2 true).1 = true ∧
    getLetter (checkAdjacentWordsS stRemedy ['A', 'B'] 2 2 true).2 2 2 = '#' ∧
    (placeWordS stRemedy ['A', 'B'] 2 2 true "ab").1 = true ∧
    getLetter (placeWordS stRemedy ['A', 'B'] 2 2 true "ab").2 2 2 = 'A' ∧
    getVerticalWordS stRemedy 2 2 'A' = some ['Z'] := by
  refine ⟨by decide, by decide, by decide, by decide, by decide⟩

/-- C5 amended: when `_place_word` accepts a word (returns `True`), every
cell of the span in the resulting grid holds the corresponding letter of the
word — in particular a cell blackened as a remedy by the adjacency check is
overwritten by the word's letter, so the remedial Black does not survive on
the span. -/
theorem C5_amended_span_letters (st : GenState) (w : List Char)
    (row col : Nat) (isH : Bool) (d : String) (st' : GenState)
    (hWF : WFGrid st)
    (hin : ∀ i, i < w.length →
      (if isH then row else row + i) < st.size ∧
      (if isH then col + i else col) < st.size)
    (h : placeWordS st w row col isH d = (true, st')) :
    ∀ i, i < w.length →
      getLetter st' (if isH then row else row + i)
        (if isH then col + i else col) = w.getD i ' ' := by
  unfold placeWordS at h
  by_cases hp1 : (checkAdjacentWordsS st w row col isH).1 = true
  · rw [if_pos hp1] at h
    have hsnd := congrArg Prod.snd h
    dsimp only at hsnd
    rw [← hsnd]
    intro i hi
    unfold placeCore
    rw [getLetter_addBlackAround_span _ row col w.length isH i hi]
    have hpres := checkAdj_pres st w row col isH
    have hWF1 : WFGrid (checkAdjacentWordsS st w row col isH).2 :=
      hpres.2.2.2.2.1 hWF
    have hsize1 : (checkAdjacentWordsS st w row col isH).2.size = st.size :=
      hpres.1
    have hWF2 : WFGrid (appendPlacement (checkAdjacentWordsS st w row col
        isH).2 w row col isH d) := hWF1
    have hWF3 : WFGrid (assignNumber (appendPlacement (checkAdjacentWordsS
        st w row col isH).2 w row col isH d) row col) := by
      unfold assignNumber
      split
      · exact WFGrid_updCell _ row col _ hWF2
      · exact hWF2
    have hsize3 : (assignNumber (appendPlacement (checkAdjacentWordsS
        st w row col isH).2 w row col isH d) row col).size = st.size := by
      unfold assignNumber
      split
      · exact hsize1
      · exact hsize1
    have hWF4 : WFGrid (setStartFlags (assignNumber (appendPlacement
        (checkAdjacentWordsS st w row col isH).2 w row col isH d) row col)
          row col isH) := WFGrid_updCell _ row col _ hWF3
    have key := getLetter_writeLettersGo_span row col isH w
      (setStartFlags (assignNumber (appendPlacement
        (checkAdjacentWordsS st w row col isH).2 w row col isH d) row col)
          row col isH) 0 hWF4
      (by
        intro k hk
        show (if isH then row else row + (0 + k)) <
            (assignNumber _ row col).size ∧ _ <
            (assignNumber _ row col).size
        rw [hsize3]
        simpa using hin k hk) i hi
    simpa using key
  · rw [if_neg hp1] at h
    have := congrArg Prod.fst h
    simp at this

/-- C5 witness: the amended statement applied to the counterexample state. -/
theorem C5_witness :
    getLetter (placeWordS stRemedy ['A', 'B'] 2 2 true "ab").2 2 2 = 'A' ∧
    getLetter (placeWordS stRemedy ['A', 'B'] 2 2 true "ab").2 2 3 = 'B' := by
  have h := C5_amended_span_letters stRemedy ['A', 'B'] 2 2 true "ab"
    (placeWordS stRemedy ['A', 'B'] 2 2 true "ab").2
    (by
      constructor
      · rfl
      · decide)
    (by decide)
    (Prod.ext (by decide) rfl)
  constructor
  · simpa using h 0 (by decide)
  · simpa using h 1 (by decide)

/-! ## Claim C3 -/

theorem map_updAt_comm {α β : Type} (g : α → β) (l : List α) (n : Nat)
    (f : α → α) (f' : β → β) (hf : ∀ x, g (f x) = f' (g x)) :
    (updAt l n f).map g = updAt (l.map g) n f' := by
  induction l generalizing n with
  | nil => rfl
  | cons a t ih =>
    cases n with
    | zero => simp [updAt, hf a]
    | succ n' => simp [updAt, ih n']

theorem letterMatrix_setLetter (st : GenState) (r c : Nat) (ch : Char) :
    letterMatrix (setLetter st r c ch).grid =
      mSet (letterMatrix st.grid) r c ch := by
  unfold setLetter updCell letterMatrix mSet
  simp only
  apply map_updAt_comm (fun rowv => rowv.map (fun cell => cell.letter))
    st.grid r
    (fun rowv => updAt rowv c (fun cell => { cell with letter := ch }))
    (fun rowv => updAt rowv c (fun _ => ch))
  intro rowx
  exact map_updAt_comm (fun cell => cell.letter) rowx c
    (fun cell => { cell with letter := ch }) (fun _ => ch) (fun _ => rfl)

/-- C3 counterexample state: a 5×5 grid containing the vertical word `BA` at
column 1 (with its border Blacks), connected letters.  Placing `BO` at
`(2, 2)` succeeds and `_add_black_cells_around_word` overwrites the letter
`A` at `(2, 1)` with Black — without any connectivity check — leaving the
letter cells split into two regions. -/
def stSplit : GenState :=
  { size := 5
    words := [⟨['B', 'A'], ["ba"]⟩, ⟨['B', 'O'], ["bo"]⟩]
    grid := [[{}, { letter := '#' }, {}, {}, {}],
             [{}, { letter := 'B' }, {}, {}, {}],
             [{}, { letter := 'A' }, {}, {}, {}],
             [{}, { letter := '#' }, {}, {}, {}],
             [{}, {}, {}, {}, {}]]
    word_positions := [(['B', 'A'], 1, 1, false, "ba")]
    used_words := [['B', 'A']] }

/-- C3 is false as stated: in a generation-run state with one connected
letter region, the black-cell write performed by `_place_word` through
`_add_black_cells_around_word` (no connectivity check) leaves the letter
cells disconnected: the flood-fill check fails on the resulting grid. -/
theorem C3_counterexample :
    gridConnected stSplit.grid stSplit.size = true ∧
    getLetter stSplit 2 1 = 'A' ∧
    (placeWordS stSplit ['B', 'O'] 2 2 true "bo").1 = true ∧
    getLetter (placeWordS stSplit ['B', 'O'] 2 2 true "bo").2 2 1 = '#' ∧
    gridConnected (placeWordS stSplit ['B', 'O'] 2 2 true "bo").2.grid
      (placeWordS stSplit ['B', 'O'] 2 2 true "bo").2.size = false := by
  refine ⟨by decide, by decide, by decide, by decide, by decide⟩

/-- C3 amended: only the remedy path `_try_add_black_cell` guards a
black-cell write with the flood-fill connectivity check, and when it reports
success the resulting grid passes that check; the black writes of
`_add_black_cells_around_word` and `_fill_empty_spaces` perform no such
check, and after one of them the letter cells can be disconnected. -/
theorem C3_amended_tryAddBlack (st : GenState) (r c : Nat) (st' : GenState)
    (h : tryAddBlackCell st r c = (true, st')) :
    st' = setLetter st r c '#' ∧
      gridConnected st'.grid st'.size = true := by
  unfold tryAddBlackCell at h
  split at h
  · split at h
    · split at h
      · rename_i hcan
        have hst' : st' = setLetter st r c '#' := by
          have := congrArg Prod.snd h
          simpa using this.symm
        refine ⟨hst', ?_⟩
        rw [hst']
        show matrixConnected (letterMatrix (setLetter st r c '#').grid)
          (setLetter st r c '#').size = true
        rw [letterMatrix_setLetter, size_setLetter]
        exact hcan
      · exact absurd (congrArg Prod.fst h) (by simp)
    · exact absurd (congrArg Prod.fst h) (by simp)
  · exact absurd (congrArg Prod.fst h) (by simp)

/-- C3 witness state: the word `AB` placed in the middle of a 4×4 grid; the
remedy blackening of the interior cell `(2, 2)` succeeds. -/
def stBlackOK : GenState :=
  { size := 4
    words := [⟨['A', 'B'], ["ab"]⟩]
    grid := [[{}, {}, {}, {}],
             [{}, { letter := 'A' }, { letter := 'B' }, {}],
             [{}, {}, {}, {}],
             [{}, {}, {}, {}]]
    word_positions := [(['A', 'B'], 1, 1, true, "ab")]
    used_words := [['A', 'B']] }

/-- C3 witness: the amended statement applied to a concrete successful
remedy blackening. -/
theorem C3_witness :
    (tryAddBlackCell stBlackOK 2 2).2 = setLetter stBlackOK 2 2 '#' ∧
      gridConnected (tryAddBlackCell stBlackOK 2 2).2.grid
        (tryAddBlackCell stBlackOK 2 2).2.size = true := by
  exact C3_amended_tryAddBlack stBlackOK 2 2 (tryAddBlackCell stBlackOK 2 2).2
    (Prod.ext (by decide) rfl)

/-! ## Claim C10 -/

theorem number_writeLettersGo (row col : Nat) (isH : Bool) :
    ∀ (w : List Char) (st : GenState) (j : Nat) (r' c' : Nat),
      (getCell (writeLettersGo row col isH st w j) r' c').number =
        (getCell st r' c').number := by
  intro w
  induction w with
  | nil => intro st j r' c'; rfl
  | cons ch rest ih =>
    intro st j r' c'
    unfold writeLettersGo
    rw [ih _ (j + 1) r' c', number_setLetter]

theorem number_addBlackAround (st : GenState) (row col wl : Nat)
    (isH : Bool) (r' c' : Nat) :
    (getCell (addBlackAround st row col wl isH) r' c').number =
      (getCell st r' c').number := by
  unfold addBlackAround
  cases isH <;> dsimp only <;> (repeat' split) <;>
    simp only [number_setLetter]

/-- Existing clue numbers survive the mutating tail of `_place_word`. -/
theorem number_placeCore (st1 : GenState) (w : List Char) (row col : Nat)
    (isH : Bool) (d : String) (r' c' : Nat) (n : Nat)
    (hn : (getCell st1 r' c').number = some n) :
    (getCell (placeCore st1 w row col isH d) r' c').number = some n := by
  unfold placeCore
  rw [number_addBlackAround, number_writeLettersGo, number_setStartFlags]
  unfold assignNumber
  split
  · rename_i hcond
    by_cases he : r' = row ∧ c' = col
    · obtain ⟨rfl, rfl⟩ := he
      have : (getCell (appendPlacement st1 w r' c' isH d) r' c').number =
          (getCell st1 r' c').number := rfl
      rw [this, hn] at hcond
      cases hcond
    · unfold setNumber
      rw [getCell_updCell_ne _ row col _ r' c' he]
      exact hn
  · exact hn

/-- When the anchor cell has no number yet, the mutating tail of
`_place_word` assigns it the new placement count. -/
theorem number_placeCore_assign (st1 : GenState) (w : List Char)
    (row col : Nat) (isH : Bool) (d : String) (hWF : WFGrid st1)
    (hrow : row < st1.size) (hcol : col < st1.size)
    (hnone : (getCell st1 row col).number = none) :
    (getCell (placeCore st1 w row col isH d) row col).number =
      some (st1.word_positions.length + 1) := by
  unfold placeCore
  rw [number_addBlackAround, number_writeLettersGo, number_setStartFlags]
  unfold assignNumber
  have hnone' : (getCell (appendPlacement st1 w row col isH d)
      row col).number = none := hnone
  rw [if_pos hnone']
  unfold setNumber
  rw [getCell_updCell_self_of_lt _ row col _ ?hr ?hc]
  case hr =>
    show row < st1.grid.length
    rw [hWF.1]
    exact hrow
  case hc =>
    show col < (st1.grid.getD row []).length
    rw [hWF.2 _ (getD_mem_of_lt _ _ _ (by rw [hWF.1]; exact hrow))]
    exact hcol
  show some ((appendPlacement st1 w row col isH d).word_positions.length) =
    some (st1.word_positions.length + 1)
  simp [appendPlacement]

/-- C10 amended: when a word is placed, its anchor cell is assigned the
number equal to the count of placements made so far including the new one —
one more than the number of previous placements, which may exceed one more
than the highest number assigned so far when some earlier anchor already had
a number — and only if the cell has no number yet; a clue number, once
assigned, is never reassigned or changed. -/
theorem C10_amended_numbering (st : GenState) (w : List Char) (row col : Nat)
    (isH : Bool) (d : String) (st' : GenState) (hWF : WFGrid st)
    (hrow : row < st.size) (hcol : col < st.size)
    (h : placeWordS st w row col isH d = (true, st')) :
    ((getCell st row col).number = none →
      (getCell st' row col).number = some (st.word_positions.length + 1)) ∧
    (∀ r c n, (getCell st r c).number = some n →
      (getCell st' r c).number = some n) := by
  unfold placeWordS at h
  by_cases hp1 : (checkAdjacentWordsS st w row col isH).1 = true
  · rw [if_pos hp1] at h
    have hsnd := congrArg Prod.snd h
    dsimp only at hsnd
    have hpres := checkAdj_pres st w row col isH
    constructor
    · intro hnone
      have h1 : (getCell (checkAdjacentWordsS st w row col isH).2
          row col).number = none := by
        rw [hpres.2.2.2.2.2 row col]
        exact hnone
      have key := number_placeCore_assign
        (checkAdjacentWordsS st w row col isH).2 w row col isH d
        (hpres.2.2.2.2.1 hWF) (by rw [hpres.1]; exact hrow)
        (by rw [hpres.1]; exact hcol) h1
      rw [hpres.2.2.1] at key
      rw [← hsnd]
      exact key
    · intro r c n hn
      rw [← hsnd]
      exact number_placeCore _ w row col isH d r c n
        (by rw [hpres.2.2.2.2.2 r c]; exact hn)
  · rw [if_neg hp1] at h
    have := congrArg Prod.fst h
    simp at this

/-- The highest clue number assigned anywhere on the grid. -/
def maxClue (st : GenState) : Nat :=
  (st.grid.map
    (fun rw => (rw.map (fun cell => (cell.number).getD 0)).foldl max 0)).foldl
      max 0

/-- C10 counterexample chain: four placements on a 7×7 grid.  `AB` (number
1), `CD` (number 2), then the vertical `AC` anchored at the same cell as `AB`
(no number assigned: the cell is already numbered), then `EF` — which
receives number 4 although the highest number assigned so far is 2. -/
def stNum0 : GenState :=
  { size := 7
    words := [⟨['A', 'B'], ["ab"]⟩, ⟨['C', 'D'], ["cd"]⟩,
              ⟨['A', 'C'], ["ac"]⟩, ⟨['E', 'F'], ["ef"]⟩]
    grid := blankGrid 7
    word_positions := []
    used_words := [] }

def stNum1 : GenState := (placeWordS stNum0 ['A', 'B'] 1 1 true "ab").2

def stNum2 : GenState := (placeWordS stNum1 ['C', 'D'] 4 3 true "cd").2

def stNum3 : GenState := (placeWordS stNum2 ['A', 'C'] 1 1 false "ac").2

/-- C10 is false as stated: after the third placement the highest assigned
clue number is 2, yet the fourth placement assigns 4 to its anchor — the
numbers are not sequential (not one more than the highest assigned so far). -/
theorem C10_counterexample :
    (placeWordS stNum0 ['A', 'B'] 1 1 true "ab").1 = true ∧
    (placeWordS stNum1 ['C', 'D'] 4 3 true "cd").1 = true ∧
    (placeWordS stNum2 ['A', 'C'] 1 1 false "ac").1 = true ∧
    (placeWordS stNum3 ['E', 'F'] 5 0 true "ef").1 = true ∧
    (getCell stNum1 1 1).number = some 1 ∧
    (getCell stNum2 4 3).number = some 2 ∧
    (getCell stNum3 1 1).number = some 1 ∧
    maxClue stNum3 = 2 ∧
    (getCell (placeWordS stNum3 ['E', 'F'] 5 0 true "ef").2 5 0).number =
      some 4 := by
  refine ⟨by decide, by decide, by decide, by decide, by decide, by decide,
    by decide, by decide, by decide⟩

/-- C10 witness: the amended statement applied to the first placement of the
counterexample chain. -/
theorem C10_witness : (getCell stNum1 1 1).number = some 1 := by
  have h := C10_amended_numbering stNum0 ['A', 'B'] 1 1 true "ab" stNum1
    (by
      constructor
      · rfl
      · decide)
    (by decide) (by decide) (Prod.ext (by decide) rfl)
  have := h.1 (by decide)
  simpa [stNum0] using this

/-! ## Claim C6 -/

theorem choiceD_mem {α : Type} (l : List α) (d : α) (rng : RNG)
    (h : l ≠ []) : (choiceD l d rng).1 ∈ l := by
  unfold choiceD
  have hpos : 0 < l.length := List.length_pos.mpr h
  have hlt : (popR rng).1 % l.length < l.length := Nat.mod_lt _ hpos
  simp only
  rw [List.getD_eq_getElem?_getD, List.getElem?_eq_getElem hlt]
  exact List.getElem_mem hlt

/-- On an all-Blank grid the per-letter loop of the adjacency check never
fires: no perpendicular neighbour holds a letter. -/
theorem checkAdjLoop_blank (st : GenState)
    (hblank : ∀ r c, getLetter st r c = ' ') (w : List Char) (row col : Nat)
    (isH : Bool) : ∀ (fuel i : Nat),
      checkAdjLoop st w row col isH i fuel = (true, st) := by
  intro fuel
  induction fuel with
  | zero => intro i; rfl
  | succ m ih =>
    intro i
    unfold checkAdjLoop
    by_cases hi : i < w.length
    · rw [if_pos hi]
      simp only [hblank, isSep]
      simpa using ih (i + 1)
    · rw [if_neg hi]

theorem checkAdjacentWordsS_blank (st : GenState)
    (hblank : ∀ r c, getLetter st r c = ' ') (w : List Char) (row col : Nat)
    (isH : Bool) (hw : isWordB st.words w = true) :
    checkAdjacentWordsS st w row col isH = (true, st) := by
  unfold checkAdjacentWordsS
  rw [hw]
  simp only [Bool.not_true, Bool.false_eq_true, if_false]
  exact checkAdjLoop_blank st hblank w row col isH w.length 0

theorem fields_writeLettersGo (row col : Nat) (isH : Bool) :
    ∀ (w : List Char) (st : GenState) (j : Nat),
      (writeLettersGo row col isH st w j).size = st.size ∧
      (writeLettersGo row col isH st w j).words = st.words ∧
      (writeLettersGo row col isH st w j).word_positions =
        st.word_positions ∧
      (writeLettersGo row col isH st w j).used_words = st.used_words := by
  intro w
  induction w with
  | nil => intro st j; exact ⟨rfl, rfl, rfl, rfl⟩
  | cons ch rest ih => intro st j; exact ih _ (j + 1)

theorem fields_addBlackAround (st : GenState) (row col wl : Nat)
    (isH : Bool) :
    (addBlackAround st row col wl isH).size = st.size ∧
    (addBlackAround st row col wl isH).words = st.words ∧
    (addBlackAround st row col wl isH).word_positions = st.word_positions ∧
    (addBlackAround st row col wl isH).used_words = st.used_words := by
  unfold addBlackAround
  cases isH <;> dsimp only <;> (repeat' split) <;>
    exact ⟨rfl, rfl, rfl, rfl⟩

theorem fields_assignNumber (st : GenState) (row col : Nat) :
    (assignNumber st row col).size = st.size ∧
    (assignNumber st row col).words = st.words ∧
    (assignNumber st row col).word_positions = st.word_positions ∧
    (assignNumber st row col).used_words = st.used_words := by
  unfold assignNumber
  split <;> exact ⟨rfl, rfl, rfl, rfl⟩

/-- The mutating tail of `_place_word` appends exactly one placement and
marks the word used. -/
theorem placeCore_fields (st1 : GenState) (w : List Char) (row col : Nat)
    (isH : Bool) (d : String) :
    (placeCore st1 w row col isH d).size = st1.size ∧
    (placeCore st1 w row col isH d).words = st1.words ∧
    (placeCore st1 w row col isH d).word_positions =
      st1.word_positions ++ [(w, row, col, isH, d)] ∧
    (placeCore st1 w row col isH d).used_words = w :: st1.used_words := by
  unfold placeCore
  have h1 := fields_addBlackAround
    (writeLettersGo row col isH
      (setStartFlags (assignNumber (appendPlacement st1 w row col isH d)
        row col) row col isH) w 0) row col w.length isH
  have h2 := fields_writeLettersGo row col isH w
    (setStartFlags (assignNumber (appendPlacement st1 w row col isH d)
      row col) row col isH) 0
  have h3 := fields_assignNumber (appendPlacement st1 w row col isH d)
    row col
  refine ⟨?_, ?_, ?_, ?_⟩
  · rw [h1.1, h2.1]
    exact h3.1
  · rw [h1.2.1, h2.2.1]
    exact h3.2.1
  · rw [h1.2.2.1, h2.2.2.1]
    exact h3.2.2.1
  · rw [h1.2.2.2, h2.2.2.2]
    exact h3.2.2.2

/-- C6: the first word is chosen by the random oracle among exactly the
unused Lexicon words of length in `[2, min(N-2, 8)]` (`random.choice` picks
uniformly; the oracle index `k` selects `suitable[k % len]`, so every
suitable word and only suitable words can be chosen) and is placed
horizontally with anchor row `N / 2` and column `(N - len) / 2`; if no such
word exists, `_place_first_word` returns `False` without touching the state
and `generate` returns `False` with the grid still empty. -/
theorem C6_first_word (size : Nat) (input : List Word') (rng : RNG) :
    (suitableFirstWords (initState size input) = [] →
      placeFirstWordS (initState size input) rng =
        (false, initState size input, rng) ∧
      generateS size input rng = (false, initState size input)) ∧
    (∀ k rng', rng = k :: rng' →
      suitableFirstWords (initState size input) ≠ [] →
      (placeFirstWordS (initState size input) rng).1 = true ∧
      (placeFirstWordS (initState size input) rng).2.1.word_positions =
        [(((suitableFirstWords (initState size input)).getD
            (k % (suitableFirstWords (initState size input)).length)
            default).text,
          size / 2,
          (size - ((suitableFirstWords (initState size input)).getD
            (k % (suitableFirstWords (initState size input)).length)
            default).text.length) / 2,
          true,
          ((suitableFirstWords (initState size input)).getD
            (k % (suitableFirstWords (initState size input)).length)
            default).definitions.getD
              (rng'.headD 0 %
                ((suitableFirstWords (initState size input)).getD
                  (k % (suitableFirstWords (initState size input)).length)
                  default).definitions.length) "")]) := by
  constructor
  · intro hempty
    have hisEmpty : (suitableFirstWords (initState size input)).isEmpty =
        true := by
      rw [hempty]
      rfl
    constructor
    · unfold placeFirstWordS
      dsimp only
      rw [hisEmpty]
      rfl
    · unfold generateS growPhase placeFirstWordS
      dsimp only
      rw [hisEmpty]
      rfl
  · intro k rng' hrng hne
    subst hrng
    have hisEmpty : (suitableFirstWords (initState size input)).isEmpty =
        false := by
      cases hS : suitableFirstWords (initState size input) with
      | nil => exact absurd hS hne
      | cons a t => rfl
    have hblank : ∀ r c, getLetter (initState size input) r c = ' ' :=
      getLetter_blank size (mkWords input) [] []
    have hmemS : (suitableFirstWords (initState size input)).getD
        (k % (suitableFirstWords (initState size input)).length) default ∈
          suitableFirstWords (initState size input) :=
      choiceD_mem (suitableFirstWords (initState size input)) default
        (k :: rng') hne
    have hmemW : (suitableFirstWords (initState size input)).getD
        (k % (suitableFirstWords (initState size input)).length) default ∈
          (initState size input).words := by
      unfold suitableFirstWords at hmemS
      exact List.mem_of_mem_filter hmemS
    have hword : isWordB (initState size input).words
        ((suitableFirstWords (initState size input)).getD
          (k % (suitableFirstWords (initState size input)).length)
          default).text = true := by
      rw [isWordB_iff_mem]
      exact ⟨_, hmemW, rfl⟩
    have hADJ := checkAdjacentWordsS_blank (initState size input) hblank
      ((suitableFirstWords (initState size input)).getD
        (k % (suitableFirstWords (initState size input)).length)
        default).text ((initState size input).size / 2)
      (((initState size input).size -
        ((suitableFirstWords (initState size input)).getD
        (k % (suitableFirstWords (initState size input)).length)
        default).text.length) / 2) true hword
    have hplace : placeFirstWordS (initState size input) (k :: rng') =
        (true,
         placeCore (initState size input)
           ((suitableFirstWords (initState size input)).getD
             (k % (suitableFirstWords (initState size input)).length)
             default).text
           ((initState size input).size / 2)
           (((initState size input).size -
             ((suitableFirstWords (initState size input)).getD
             (k % (suitableFirstWords (initState size input)).length)
             default).text.length) / 2)
           true
           (((suitableFirstWords (initState size input)).getD
             (k % (suitableFirstWords (initState size input)).length)
             default).definitions.getD
               (rng'.headD 0 %
                 ((suitableFirstWords (initState size input)).getD
                   (k % (suitableFirstWords
                     (initState size input)).length)
                   default).definitions.length) ""),
         (popR rng').2) := by
      unfold placeFirstWordS
      dsimp only
      rw [hisEmpty]
      simp only [Bool.false_eq_true, if_false, choiceD, popR]
      unfold placeWordS
      rw [hADJ]
      rcases rng' with _ | ⟨k2, rest⟩ <;> rfl
    constructor
    · rw [hplace]
    · rw [hplace]
      rw [(placeCore_fields _ _ _ _ _ _).2.2.1]
      rfl

/-- C6 witness: both branches at concrete inputs — the empty Lexicon (no
seed word: `generate` fails with the state untouched), and a one-word
Lexicon, where `AB` is seeded horizontally centred on a 5×5 grid. -/
theorem C6_witness :
    generateS 10 [] [] = (false, initState 10 []) ∧
    (placeFirstWordS (initState 5 [⟨['A', 'B'], ["ab"]⟩]) [0]).1 = true ∧
    (placeFirstWordS (initState 5 [⟨['A', 'B'], ["ab"]⟩])
      [0]).2.1.word_positions = [(['A', 'B'], 2, 1, true, "ab")] := by
  refine ⟨((C6_first_word 10 [] []).1 (by decide)).2, ?_, ?_⟩
  · exact ((C6_first_word 5 [⟨['A', 'B'], ["ab"]⟩] [0]).2 0 [] rfl
      (by decide)).1
  · have h := ((C6_first_word 5 [⟨['A', 'B'], ["ab"]⟩] [0]).2 0 [] rfl
      (by decide)).2
    rw [h]
    decide

/-! ## Claim C9 -/

/-- The word texts of the committed placements. -/
def posTexts (st : GenState) : List (List Char) :=
  st.word_positions.map (fun p => p.1)

/-- The no-reuse invariant: no duplicate placement text, and every placed
text is recorded in `used_words`. -/
def InvNoDup (st : GenState) : Prop :=
  (posTexts st).Nodup ∧ ∀ t ∈ posTexts st, t ∈ st.used_words

theorem contains_false_not_mem {α : Type} [DecidableEq α] (l : List α)
    (a : α) (h : l.contains a = false) : a ∉ l := by
  intro hm
  simp at h
  exact h hm

theorem InvNoDup_initState (size : Nat) (input : List Word') :
    InvNoDup (initState size input) := by
  constructor
  · exact List.nodup_nil
  · intro t ht
    cases ht

/-- The invariant transfers along equality of the placement and used lists. -/
theorem InvNoDup_of_eq (st st' : GenState)
    (hp : st'.word_positions = st.word_positions)
    (hu : st'.used_words = st.used_words) (hInv : InvNoDup st) :
    InvNoDup st' := by
  constructor
  · show ((st'.word_positions).map (fun p => p.1)).Nodup
    rw [hp]
    exact hInv.1
  · intro t ht
    rw [hu]
    apply hInv.2
    show t ∈ (st.word_positions).map (fun p => p.1)
    rw [← hp]
    exact ht

/-- `_place_word` preserves the no-reuse invariant whenever the word it is
given is not yet used (which every caller guarantees by filtering). -/
theorem InvNoDup_placeWordS (st : GenState) (w : List Char) (row col : Nat)
    (isH : Bool) (d : String) (hInv : InvNoDup st)
    (hw : w ∉ st.used_words) :
    InvNoDup (placeWordS st w row col isH d).2 := by
  have hpres := checkAdj_pres st w row col isH
  unfold placeWordS
  dsimp only
  split
  · have hfields := placeCore_fields (checkAdjacentWordsS st w row col
      isH).2 w row col isH d
    constructor
    · show (((placeCore _ w row col isH d).word_positions).map
        (fun p => p.1)).Nodup
      rw [hfields.2.2.1, hpres.2.2.1, List.map_append]
      rw [List.nodup_append]
      refine ⟨hInv.1, List.nodup_singleton w, ?_⟩
      intro t ht ht'
      simp only [List.map_cons, List.map_nil, List.mem_singleton] at ht'
      subst ht'
      exact hw (hInv.2 t ht)
    · intro t ht
      show t ∈ (placeCore _ w row col isH d).used_words
      rw [hfields.2.2.2, hpres.2.2.2.1]
      have : t ∈ posTexts st ++ [w] := by
        have e : posTexts (placeCore (checkAdjacentWordsS st w row col
            isH).2 w row col isH d) = posTexts st ++ [w] := by
          unfold posTexts
          rw [hfields.2.2.1, hpres.2.2.1, List.map_append]
          rfl
        rw [← e]
        exact ht
      rcases List.mem_append.mp this with h' | h'
      · exact List.mem_cons_of_mem w (hInv.2 t h')
      · rw [List.mem_singleton.mp h']
        exact List.mem_cons_self w _
  · exact InvNoDup_of_eq st _ hpres.2.2.1 hpres.2.2.2.1 hInv

theorem InvNoDup_tryShortLoop (row col : Nat) (isH : Bool) :
    ∀ (ws : List Word') (st : GenState) (rng : RNG), InvNoDup st →
      (∀ w ∈ ws, w.text ∉ st.used_words) →
      InvNoDup (tryShortLoop st row col isH ws rng).2.1 := by
  intro ws
  induction ws with
  | nil => intro st rng hInv _; exact hInv
  | cons w rest ih =>
    intro st rng hInv hws
    unfold tryShortLoop
    split
    · rcases hch : choiceD w.definitions "" rng with ⟨d, rng1⟩
      dsimp only
      exact InvNoDup_placeWordS st w.text row col isH d hInv
        (hws w (List.mem_cons_self w rest))
    · exact ih st rng hInv
        (fun x hx => hws x (List.mem_cons_of_mem w hx))

theorem InvNoDup_tryPlaceShortWordS (st : GenState) (row col : Nat)
    (isH : Bool) (rng : RNG) (hInv : InvNoDup st) :
    InvNoDup (tryPlaceShortWordS st row col isH rng).2.1 := by
  unfold tryPlaceShortWordS
  apply InvNoDup_tryShortLoop row col isH _ st rng hInv
  intro w hw
  have := (List.mem_filter.mp hw).2
  rw [Bool.and_eq_true] at this
  exact contains_false_not_mem _ _ (by simpa using this.2)

theorem InvNoDup_addWordLoop :
    ∀ (cands : List (Nat × Nat × Char × Bool)) (st : GenState) (rng : RNG),
      InvNoDup st → InvNoDup (addWordLoop st cands rng).2.1 := by
  intro cands
  induction cands with
  | nil => intro st rng hInv; exact hInv
  | cons cand rest ih =>
    obtain ⟨row, col, letter, isH⟩ := cand
    intro st rng hInv
    unfold addWordLoop
    dsimp only
    by_cases hne : (st.words.filter (fun w =>
        w.text.contains letter && !(st.used_words.contains w.text) &&
        canPlaceWordS st w.text row col isH letter)).isEmpty = true
    · rw [if_pos hne]
      exact ih st rng hInv
    · rw [if_neg hne]
      have hWmem : (choiceD (st.words.filter (fun w =>
          w.text.contains letter && !(st.used_words.contains w.text) &&
          canPlaceWordS st w.text row col isH letter)) default rng).1 ∈
          st.words.filter (fun w =>
            w.text.contains letter && !(st.used_words.contains w.text) &&
            canPlaceWordS st w.text row col isH letter) := by
        apply choiceD_mem
        intro hcon
        rw [hcon] at hne
        simp at hne
      have hWunused : (choiceD (st.words.filter (fun w =>
          w.text.contains letter && !(st.used_words.contains w.text) &&
          canPlaceWordS st w.text row col isH letter)) default rng).1.text ∉
          st.used_words := by
        have := (List.mem_filter.mp hWmem).2
        rw [Bool.and_eq_true, Bool.and_eq_true] at this
        exact contains_false_not_mem _ _ (by simpa using this.1.2)
      repeat' split
      all_goals first
        | exact InvNoDup_placeWordS _ _ _ _ _ _ hInv hWunused
        | exact ih _ _ (InvNoDup_placeWordS _ _ _ _ _ _ hInv hWunused)
        | exact ih _ _ hInv

theorem InvNoDup_addWordS (st : GenState) (rng : RNG) (hInv : InvNoDup st) :
    InvNoDup (addWordS st rng).2.1 := by
  unfold addWordS
  dsimp only
  split
  · exact hInv
  · exact InvNoDup_addWordLoop _ st _ hInv

theorem InvNoDup_growLoop :
    ∀ (fuel attempts : Nat) (st : GenState) (rng : RNG), InvNoDup st →
      InvNoDup (growLoop fuel attempts st rng).1 := by
  intro fuel
  induction fuel with
  | zero => intro _ st rng hInv; exact hInv
  | succ m ih =>
    intro attempts st rng hInv
    unfold growLoop
    split
    · rcases haw : addWordS st rng with ⟨ok, st1, rng1⟩
      dsimp only
      have h1 : InvNoDup st1 := by
        have h2 := InvNoDup_addWordS st rng hInv
        rw [haw] at h2
        exact h2
      split
      · exact h1
      · exact ih _ _ _ h1
    · exact hInv

theorem foldl_preserves {σ α : Type} (P : σ → Prop) (f : σ → α → σ)
    (h : ∀ s a, P s → P (f s a)) :
    ∀ (l : List α) (s : σ), P s → P (l.foldl f s) := by
  intro l
  induction l with
  | nil => intro s hs; exact hs
  | cons a t ih => intro s hs; exact ih (f s a) (h s a hs)

theorem InvNoDup_fillEmptySpacesS (st : GenState) (rng : RNG)
    (hInv : InvNoDup st) : InvNoDup (fillEmptySpacesS st rng).1 := by
  unfold fillEmptySpacesS
  refine foldl_preserves (fun p : GenState × RNG => InvNoDup p.1) _ ?_ _ _
    hInv
  intro p rc hp
  dsimp only
  split
  · rcases hts : tryPlaceShortWordS p.1 rc.1 rc.2 true p.2 with
      ⟨ok, st1, rng1⟩
    dsimp only
    have h1 : InvNoDup st1 := by
      have h2 := InvNoDup_tryPlaceShortWordS p.1 rc.1 rc.2 true p.2 hp
      rw [hts] at h2
      exact h2
    split
    · exact h1
    · split
      · exact InvNoDup_of_eq _ _ rfl rfl h1
      · exact h1
  · exact hp

theorem InvNoDup_fixPass (st : GenState) (rng : RNG) (hInv : InvNoDup st) :
    InvNoDup (fixPass st rng).1 := by
  unfold fixPass
  refine foldl_preserves
    (fun p : GenState × Bool × RNG => InvNoDup p.1) _ ?_ _ _ hInv
  intro p ij hp
  dsimp only
  have hmid : ∀ q : GenState × Bool × RNG, InvNoDup q.1 →
      InvNoDup ((if tripleAtV q.1 ij.1 ij.2 = true then
        match tryPlaceShortWordS q.1 (ij.2 + 1) ij.1 false q.2.2 with
        | (ok, st2, rng2) => (st2, (q.2.1 || ok, rng2))
      else (q.1, (q.2.1, q.2.2)) : GenState × Bool × RNG)).1 := by
    intro q hq
    split
    · rcases hts : tryPlaceShortWordS q.1 (ij.2 + 1) ij.1 false q.2.2 with
        ⟨ok, st2, rng2⟩
      dsimp only
      have h2 := InvNoDup_tryPlaceShortWordS q.1 (ij.2 + 1) ij.1 false
        q.2.2 hq
      rw [hts] at h2
      exact h2
    · exact hq
  split
  · rcases hts : tryPlaceShortWordS p.1 ij.1 (ij.2 + 1) true p.2.2 with
      ⟨ok, st1, rng1⟩
    dsimp only
    have h1 : InvNoDup st1 := by
      have h2 := InvNoDup_tryPlaceShortWordS p.1 ij.1 (ij.2 + 1) true
        p.2.2 hp
      rw [hts] at h2
      exact h2
    split
    · rcases hts2 : tryPlaceShortWordS st1 (ij.2 + 1) ij.1 false rng1 with
        ⟨ok2, st2, rng2⟩
      dsimp only
      have h3 := InvNoDup_tryPlaceShortWordS st1 (ij.2 + 1) ij.1 false
        rng1 h1
      rw [hts2] at h3
      exact h3
    · exact h1
  · split
    · rcases hts2 : tryPlaceShortWordS p.1 (ij.2 + 1) ij.1 false p.2.2 with
        ⟨ok2, st2, rng2⟩
      dsimp only
      have h3 := InvNoDup_tryPlaceShortWordS p.1 (ij.2 + 1) ij.1 false
        p.2.2 hp
      rw [hts2] at h3
      exact h3
    · exact hp

theorem InvNoDup_fixLoop :
    ∀ (fuel : Nat) (st : GenState) (rng : RNG), InvNoDup st →
      InvNoDup (fixLoop fuel st rng).1 := by
  intro fuel
  induction fuel with
  | zero => intro st rng hInv; exact hInv
  | succ m ih =>
    intro st rng hInv
    unfold fixLoop
    rcases hfp : fixPass st rng with ⟨st1, fixed, rng1⟩
    dsimp only
    have h1 : InvNoDup st1 := by
      have h2 := InvNoDup_fixPass st rng hInv
      rw [hfp] at h2
      exact h2
    split
    · exact ih _ _ h1
    · exact h1

theorem InvNoDup_placeFirstWordS (st : GenState) (rng : RNG)
    (hInv : InvNoDup st) : InvNoDup (placeFirstWordS st rng).2.1 := by
  unfold placeFirstWordS
  dsimp only
  split
  · exact hInv
  · rename_i hne
    have hmem : (choiceD (suitableFirstWords st) default rng).1 ∈
        suitableFirstWords st := by
      apply choiceD_mem
      intro hcon
      rw [hcon] at hne
      simp at hne
    have hunused : (choiceD (suitableFirstWords st) default
        rng).1.text ∉ st.used_words := by
      have := (List.mem_filter.mp hmem).2
      rw [Bool.and_eq_true, Bool.and_eq_true] at this
      exact contains_false_not_mem _ _ (by simpa using this.2)
    rcases hch : choiceD (suitableFirstWords st) default rng with ⟨w, rng1⟩
    dsimp only
    rcases hch2 : choiceD w.definitions "" rng1 with ⟨d, rng2⟩
    dsimp only
    rw [hch] at hunused
    exact InvNoDup_placeWordS st w.text _ _ true d hInv hunused

/-- C9: no word text is ever placed twice.  The placement list of the final
state of `generate` contains no duplicate text (and since placements are
append-only, the same holds at every intermediate point of the run): every
placement path filters out words already in `used_words`, and `_place_word`
records the placed text there. -/
theorem InvNoDup_growPhase (size : Nat) (input : List Word') (rng : RNG) :
    InvNoDup (growPhase size input rng).2.1 := by
  unfold growPhase
  dsimp only
  rcases hpf : placeFirstWordS (initState size input) rng with
    ⟨ok, st1, rng1⟩
  dsimp only
  have h1 : InvNoDup st1 := by
    have h2 := InvNoDup_placeFirstWordS (initState size input) rng
      (InvNoDup_initState size input)
    rw [hpf] at h2
    exact h2
  split
  · exact InvNoDup_growLoop _ 0 st1 rng1 h1
  · exact h1

/-- C9: no word text is ever placed twice.  The placement list of the final
state of `generate` contains no duplicate text (placements are append-only,
so the same holds at every intermediate point of the run): every placement
path filters out words already in `used_words`, and `_place_word` records
the placed text there. -/
theorem C9_no_word_reuse (size : Nat) (input : List Word') (rng : RNG) :
    ((generateS size input rng).2.word_positions.map
      (fun p => p.1)).Nodup := by
  unfold generateS
  rcases hgp : growPhase size input rng with ⟨ok, st1, rng1⟩
  dsimp only
  have h1 : InvNoDup st1 := by
    have h2 := InvNoDup_growPhase size input rng
    rw [hgp] at h2
    exact h2
  split
  · split
    · unfold finishPhase
      dsimp only
      exact (InvNoDup_fixLoop _ _ _
        (InvNoDup_fillEmptySpacesS _ _ h1)).1
    · exact h1.1
  · exact h1.1

end Crossword
